import Mathlib

/-!
# Verification of the agent-builder configuration core

Shallow embedding of the configuration state machine of the agent-builder
repository: the pydantic schema validation (`src/agent_builder/models.py`),
the config-store reducers and tool operations
(`src/agent_builder/middleware/agent_config.py`), the mock-conversation
parser, the tool-name sanitizer (`src/agent_builder/agent_single_create.py`),
and the change-detection gating of agent instantiation (`app.py`).

Python dynamic values are embedded as the inductive `Value` (JSON-like),
Python dicts as insertion-ordered association lists, and the pydantic
validators as total Lean functions returning `Except (List VError) _`,
collecting one error per violated field path exactly as pydantic does.
-/

set_option maxRecDepth 10000

namespace AgentBuilder

/-- Embedding of a dynamic Python value (the payloads that flow through the
configuration store: strings, numbers, booleans, `None`, lists and dicts). -/
inductive Value where
  | vnone : Value
  | vstr (s : String) : Value
  | vint (n : Int) : Value
  | vbool (b : Bool) : Value
  | vlist (xs : List Value) : Value
  | vdict (kvs : List (String × Value)) : Value

/-- A Python `dict[str, Any]`: an insertion-ordered association list. -/
abbrev Dict := List (String × Value)

/-- `isinstance(v, dict)`. -/
def Value.isDict : Value → Bool
  | .vdict _ => true
  | _ => false

/-- First-match lookup, the semantics of `d[k]` / `d.get(k)` on a Python dict
(whose keys are unique, so first match is the only match). -/
def pyLookup (d : Dict) (k : String) : Option Value :=
  match d with
  | [] => none
  | (k', v) :: rest => if k' = k then some v else pyLookup rest k

/-- `{**a, **b}`: keys of `a` keep their position (with `b`'s value when
overridden), keys of `b` not in `a` are appended in `b`'s order. -/
def dictMerge (a b : Dict) : Dict :=
  (a.map fun kv =>
    match pyLookup b kv.1 with
    | some v => (kv.1, v)
    | none => kv)
  ++ b.filter fun kv => (pyLookup a kv.1).isNone

/-! ## The pydantic schema (`src/agent_builder/models.py`)

`Tool`, `Skill` and `AgentConfig` with their field constraints:

* `Tool.name : str` (required), `Tool.config : Dict[str, Any]` (default `{}`)
* `Skill.name : str` 1–50, `Skill.when_to_use : str` 10–500,
  `Skill.prompt : str` ≥ 10, `Skill.tools : List[Tool]` (default `[]`)
* `AgentConfig.name : str` 1–100, `AgentConfig.description : str` 1–500,
  `AgentConfig.system_prompt : str` ≥ 10,
  `AgentConfig.skills : List[Skill]` with exactly one item.
-/

structure Tool where
  name : String
  config : Dict

structure Skill where
  name : String
  when_to_use : String
  prompt : String
  tools : List Tool

structure AgentConfig where
  name : String
  description : String
  system_prompt : String
  skills : List Skill

/-- One pydantic validation error: a field path (`loc`, list indices
stringified as in `write_agent_config`'s rendering) and a message. -/
structure VError where
  loc : List String
  msg : String

/-- Errors carried by a field-check result (`[]` when the check succeeded). -/
def errsOf {α : Type} : Except (List VError) α → List VError
  | .ok _ => []
  | .error es => es

/-- pydantic validation of one required-or-defaulted `str` field with
`min_length`/optional `max_length`: missing → `Field required`; non-string →
`string_type`; then the length bounds (Python `len` = Unicode code points =
`String.length`). At most one error is produced, at path `path`. -/
def strField (d : Dict) (key : String) (minL : Nat) (maxL : Option Nat)
    (path : List String) : Except (List VError) String :=
  match pyLookup d key with
  | none => .error [⟨path, "Field required"⟩]
  | some (.vstr s) =>
      if s.length < minL then
        .error [⟨path, "String should have at least " ++ toString minL ++ " characters"⟩]
      else
        match maxL with
        | some m =>
            if s.length > m then
              .error [⟨path, "String should have at most " ++ toString m ++ " characters"⟩]
            else .ok s
        | none => .ok s
  | some _ => .error [⟨path, "Input should be a valid string"⟩]

/-- Value carried by a successful field-check result (the default is never
used: success is decided by the collected errors being empty, which forces
the `ok` constructor). -/
def extractOk {α : Type} (dft : α) : Except (List VError) α → α
  | .ok a => a
  | .error _ => dft

/-- The `name` field check of `Tool`: required `str`, no length bounds. -/
def toolNameR (path : List String) (d : Dict) : Except (List VError) String :=
  strField d "name" 0 none (path ++ ["name"])

/-- The `config` field check of `Tool`: optional dict, default `{}`. -/
def toolConfigR (path : List String) (d : Dict) : Except (List VError) Dict :=
  match pyLookup d "config" with
  | none => .ok []
  | some (.vdict kvs) => .ok kvs
  | some _ => .error [⟨path ++ ["config"], "Input should be a valid dictionary"⟩]

/-- pydantic validation of `Tool` from a dynamic value at `path`:
a non-dict input is a single `model_type` error; a dict is validated
field-wise, collecting every field error and succeeding iff there is none. -/
def validateTool (path : List String) (v : Value) : Except (List VError) Tool :=
  match v with
  | .vdict d =>
      if (errsOf (toolNameR path d) ++ errsOf (toolConfigR path d)).isEmpty then
        .ok ⟨extractOk "" (toolNameR path d), extractOk [] (toolConfigR path d)⟩
      else .error (errsOf (toolNameR path d) ++ errsOf (toolConfigR path d))
  | _ => .error [⟨path, "Input should be a valid dictionary or instance of Tool"⟩]

/-- Validate a list field of submodels: each item is validated at
`path ++ [toString i]`; the errors of all items are collected and the list
succeeds iff every item does. -/
def validateItems {α : Type} (f : List String → Value → Except (List VError) α)
    (dft : α) (path : List String) (i : Nat) (xs : List Value) :
    Except (List VError) (List α) :=
  match xs with
  | [] => .ok []
  | x :: rest =>
      if (errsOf (f (path ++ [toString i]) x)
          ++ errsOf (validateItems f dft path (i + 1) rest)).isEmpty then
        .ok (extractOk dft (f (path ++ [toString i]) x)
             :: extractOk [] (validateItems f dft path (i + 1) rest))
      else
        .error (errsOf (f (path ++ [toString i]) x)
                ++ errsOf (validateItems f dft path (i + 1) rest))

/-- Default `Tool` (never observed, see `extractOk`). -/
def dfltTool : Tool := ⟨"", []⟩

/-- Default `Skill` (never observed, see `extractOk`). -/
def dfltSkill : Skill := ⟨"", "", "", []⟩

/-- The `name` field check of `Skill`: required `str`, 1–50. -/
def skillNameR (path : List String) (d : Dict) : Except (List VError) String :=
  strField d "name" 1 (some 50) (path ++ ["name"])

/-- The `when_to_use` field check of `Skill`: required `str`, 10–500. -/
def skillWtuR (path : List String) (d : Dict) : Except (List VError) String :=
  strField d "when_to_use" 10 (some 500) (path ++ ["when_to_use"])

/-- The `prompt` field check of `Skill`: required `str`, ≥ 10. -/
def skillPromptR (path : List String) (d : Dict) : Except (List VError) String :=
  strField d "prompt" 10 none (path ++ ["prompt"])

/-- The `tools` field check of `Skill`: optional list of `Tool`s. -/
def skillToolsR (path : List String) (d : Dict) : Except (List VError) (List Tool) :=
  match pyLookup d "tools" with
  | none => .ok []
  | some (.vlist xs) => validateItems validateTool dfltTool (path ++ ["tools"]) 0 xs
  | some _ => .error [⟨path ++ ["tools"], "Input should be a valid list"⟩]

/-- All field errors of a candidate `Skill` dict. -/
def skillErrs (path : List String) (d : Dict) : List VError :=
  errsOf (skillNameR path d) ++ errsOf (skillWtuR path d)
  ++ errsOf (skillPromptR path d) ++ errsOf (skillToolsR path d)

/-- pydantic validation of `Skill` from a dynamic value at `path`. -/
def validateSkill (path : List String) (v : Value) : Except (List VError) Skill :=
  match v with
  | .vdict d =>
      if (skillErrs path d).isEmpty then
        .ok ⟨extractOk "" (skillNameR path d), extractOk "" (skillWtuR path d),
             extractOk "" (skillPromptR path d), extractOk [] (skillToolsR path d)⟩
      else .error (skillErrs path d)
  | _ => .error [⟨path, "Input should be a valid dictionary or instance of Skill"⟩]

/-- Cardinality errors of the `skills` list (`min_items=1`, `max_items=1`). -/
def skillsLenErrs (xs : List Value) : List VError :=
  (if xs.length < 1 then
    [⟨["skills"], "List should have at least 1 item after validation"⟩] else [])
  ++ (if xs.length > 1 then
    [⟨["skills"], "List should have at most 1 item after validation"⟩] else [])

/-- pydantic validation of the `skills` field: required; must be a list;
items validated (errors at `skills -> i -> ...`) and the cardinality checked
(errors at `skills`); all collected. -/
def skillsField (d : Dict) : Except (List VError) (List Skill) :=
  match pyLookup d "skills" with
  | none => .error [⟨["skills"], "Field required"⟩]
  | some (.vlist xs) =>
      if (errsOf (validateItems validateSkill dfltSkill ["skills"] 0 xs)
          ++ skillsLenErrs xs).isEmpty then
        .ok (extractOk [] (validateItems validateSkill dfltSkill ["skills"] 0 xs))
      else
        .error (errsOf (validateItems validateSkill dfltSkill ["skills"] 0 xs)
                ++ skillsLenErrs xs)
  | some _ => .error [⟨["skills"], "Input should be a valid list"⟩]

/-- The `name` field check of `AgentConfig`: required `str`, 1–100. -/
def acNameR (d : Dict) : Except (List VError) String :=
  strField d "name" 1 (some 100) ["name"]

/-- The `description` field check of `AgentConfig`: required `str`, 1–500. -/
def acDescR (d : Dict) : Except (List VError) String :=
  strField d "description" 1 (some 500) ["description"]

/-- The `system_prompt` field check of `AgentConfig`: required `str`, ≥ 10. -/
def acSpR (d : Dict) : Except (List VError) String :=
  strField d "system_prompt" 10 none ["system_prompt"]

/-- All field errors of a candidate `AgentConfig` dict, in field order. -/
def acErrs (d : Dict) : List VError :=
  errsOf (acNameR d) ++ errsOf (acDescR d) ++ errsOf (acSpR d) ++ errsOf (skillsField d)

/-- `AgentConfig(**candidate)`: validate every field of the candidate dict,
collecting (in field-declaration order) one error per violated field path;
succeed exactly when no field is violated. -/
def validateAgentConfig (d : Dict) : Except (List VError) AgentConfig :=
  if (acErrs d).isEmpty then
    .ok ⟨extractOk "" (acNameR d), extractOk "" (acDescR d), extractOk "" (acSpR d),
         extractOk [] (skillsField d)⟩
  else .error (acErrs d)

/-! ## Config store state and reducers
(`src/agent_builder/middleware/agent_config.py`) -/

/-- `model_dump()` of a `Tool`: a plain dict in field order. -/
def Tool.dump (t : Tool) : Value :=
  .vdict [("name", .vstr t.name), ("config", .vdict t.config)]

/-- `model_dump()` of a `Skill`: a plain dict in field order. -/
def Skill.dump (s : Skill) : Value :=
  .vdict [("name", .vstr s.name), ("when_to_use", .vstr s.when_to_use),
          ("prompt", .vstr s.prompt), ("tools", .vlist (s.tools.map Tool.dump))]

/-- `model_dump()` of an `AgentConfig`: a plain dict in field order. -/
def AgentConfig.dump (c : AgentConfig) : Dict :=
  [("name", .vstr c.name), ("description", .vstr c.description),
   ("system_prompt", .vstr c.system_prompt),
   ("skills", .vlist (c.skills.map Skill.dump))]

/-- The `agent_config` state slot holds either a validated `AgentConfig` or a
raw (possibly partial) dict; `Option ConfigValue` adds the `None` case. -/
inductive ConfigValue where
  | acfg (c : AgentConfig) : ConfigValue
  | raw (d : Dict) : ConfigValue

/-- A message in the `mock_conversations` / `messages` channels:
`HumanMessage` or `AIMessage` with its content. -/
inductive BaseMsg where
  | human (content : String) : BaseMsg
  | ai (content : String) : BaseMsg
deriving DecidableEq

/-- The dict the reducer merges into: `{}` for `None`, `model_dump()` for an
`AgentConfig`, the dict itself otherwise. -/
def currentData : Option ConfigValue → Dict
  | none => []
  | some (.acfg c) => c.dump
  | some (.raw d') => d'

/-- `_agent_config_reducer`: `None` keeps the old value; an `AgentConfig`
replaces it; a dict is shallow-merged over the old value's dict form
(`model_dump()` for an `AgentConfig`, `{}` for `None`) and the merge is
promoted to an `AgentConfig` when it validates, kept raw otherwise. -/
def agent_config_reducer (old new : Option ConfigValue) : Option ConfigValue :=
  match new with
  | none => old
  | some (.acfg c) => some (.acfg c)
  | some (.raw d) =>
      match validateAgentConfig (dictMerge (currentData old) d) with
      | .ok c => some (.acfg c)
      | .error _ => some (.raw (dictMerge (currentData old) d))

/-- `_mock_conversations_reducer`: unconditional replace when an update is
present, otherwise keep the old value (`old or []`). -/
def mock_conversations_reducer (old new : Option (List BaseMsg)) : List BaseMsg :=
  match new with
  | some n => n
  | none => old.getD []

/-- The middleware state slots the config tools touch. -/
structure AgentStateM where
  agent_config : Option ConfigValue
  mock_conversations : Option (List BaseMsg)

/-- The `update=` payload of a `Command` returned by a config tool: the state
keys it writes (`none` = key absent from the update). The `messages` channel
append is irrelevant to the claims and omitted. -/
structure CommandUpdate where
  agent_config : Option ConfigValue
  mock_conversations : Option (List BaseMsg)

/-- Applying a `Command`'s update: each provided key goes through its
channel's reducer; an absent key leaves the channel alone (for
`agent_config` this coincides with passing `None` to the reducer). -/
def applyUpdate (st : AgentStateM) (u : CommandUpdate) : AgentStateM :=
  ⟨agent_config_reducer st.agent_config u.agent_config,
   match u.mock_conversations with
   | some n => some (mock_conversations_reducer st.mock_conversations (some n))
   | none => st.mock_conversations⟩

/-- Result of a config tool call: a `Command` carrying a state update, or a
plain error string returned to the model (no state update at all). -/
inductive ToolResult where
  | command (u : CommandUpdate) (message : String) : ToolResult
  | errorText (t : String) : ToolResult

/-- Render one pydantic error the way `write_agent_config` does:
`"  - path -> to -> field: message"`. -/
def renderError (e : VError) : String :=
  "  - " ++ String.intercalate " -> " e.loc ++ ": " ++ e.msg

/-- `write_agent_config`: validate the whole candidate against the
`AgentConfig` schema; on success emit a `Command` storing the validated
config (and only it), on failure return the rendered list of every
validation error. -/
def write_agent_config (config : Dict) : ToolResult :=
  match validateAgentConfig config with
  | .ok validated_config =>
      .command ⟨some (.acfg validated_config), none⟩
        ("Agent configuration written successfully: " ++ validated_config.name)
  | .error es =>
      .errorText ("Configuration validation failed:\n"
        ++ String.intercalate "\n" (es.map renderError))

/-- `update_agent_config`: reject a non-dict patch with a plain error string;
otherwise emit a `Command` whose `agent_config` update is the raw patch
(the shallow merge happens in `_agent_config_reducer`). -/
def update_agent_config (updates : Value) : ToolResult :=
  match updates with
  | .vdict d =>
      .command ⟨some (.raw d), none⟩
        ("Agent configuration updated: " ++ String.intercalate ", " (d.map (·.1)))
  | _ => .errorText "Error: updates must be a dictionary"

/-- The state reached after a tool call: a `Command` is applied through the
reducers, an error string changes nothing. -/
def applyToolResult (st : AgentStateM) (r : ToolResult) : AgentStateM :=
  match r with
  | .command u _ => applyUpdate st u
  | .errorText _ => st

/-! ## Mock-conversation parser
(`parse_mock_conversations` in `src/agent_builder/middleware/agent_config.py`)

Strings are handled as `List Char`; `String.toList`/`String.mk` convert at
the boundary. `Char.toLower` models Python `str.lower` on its ASCII
fragment (identity on everything the role comparison and the sanitizer's
kept alphabet care about). -/

/-- Python `str.strip()`'s whitespace set (the ASCII part). -/
def isPyWS (c : Char) : Bool :=
  c = ' ' || c = '\t' || c = '\n' || c = '\r' || c = '\x0b' || c = '\x0c'

/-- Python `str.strip()`: drop whitespace from both ends. -/
def trimChars (l : List Char) : List Char :=
  ((l.dropWhile isPyWS).reverse.dropWhile isPyWS).reverse

/-- Python `str.split('\n')`: e.g. `"" ↦ [""]`, `"a\n" ↦ ["a", ""]`. -/
def splitNL : List Char → List (List Char)
  | [] => [[]]
  | c :: cs =>
      if c = '\n' then [] :: splitNL cs
      else
        match splitNL cs with
        | h :: t => (c :: h) :: t
        | [] => [[c]]

/-- Does the list start with the literal `:**`? -/
def startsWithCS : List Char → Bool
  | a :: b :: c :: _ => a = ':' && b = '*' && c = '*'
  | _ => false

/-- Index of the first occurrence of `:**` (what the lazy `(.*?)` of the
role regex stops at), `none` when there is none. -/
def findCS : List Char → Option Nat
  | [] => none
  | c :: cs =>
      if startsWithCS (c :: cs) then some 0
      else (findCS cs).map (· + 1)

/-- `re.match(r'\*\*(.*?):\*\*\s*(.*)', line)`: the line must start with
`**` and contain `:**`; group 1 is the (lazily minimal) label, group 2 the
remainder after the separator; both are `.strip()`ped as in the source
(the `\s*` is subsumed by the leading strip). -/
def matchRole (line : List Char) : Option (List Char × List Char) :=
  match line with
  | '*' :: '*' :: rest =>
      match findCS rest with
      | some i => some (trimChars (rest.take i), trimChars (rest.drop (i + 3)))
      | none => none
  | _ => none

/-- Close a turn: `HumanMessage` when the lowercased label is `user` or
`用户`, `AIMessage` otherwise. -/
def mkMsg (role : List Char) (content : String) : BaseMsg :=
  if role.map Char.toLower = "user".toList || role.map Char.toLower = "用户".toList then
    .human content
  else
    .ai content

/-- The parser's loop state: emitted messages, `current_role`
(`[]` plays both Python's `None` and the falsy `""`), `current_content`. -/
structure PState where
  messages : List BaseMsg
  role : List Char
  content : List (List Char)

/-- Flush the current turn if both a role and some content are held
(`if current_role and current_content`), else leave the messages alone. -/
def emitTurn (st : PState) : List BaseMsg :=
  if st.role.isEmpty || st.content.isEmpty then st.messages
  else st.messages ++ [mkMsg st.role (String.mk (List.intercalate ['\n'] st.content))]

/-- The line loop of `parse_mock_conversations`: strip the line; a blank
line flushes the open turn (keeping the role); a role-pattern line flushes
then starts a new turn; any other line is appended to the open turn's
content (or dropped when no role has been seen); end of input flushes. -/
def parseLoop : List (List Char) → PState → List BaseMsg
  | [], st => emitTurn st
  | l :: ls, st =>
      let line := trimChars l
      if line.isEmpty then
        if st.role.isEmpty || st.content.isEmpty then parseLoop ls st
        else parseLoop ls ⟨emitTurn st, st.role, []⟩
      else
        match matchRole line with
        | some (label, content) => parseLoop ls ⟨emitTurn st, label, [content]⟩
        | none =>
            if st.role.isEmpty then parseLoop ls st
            else parseLoop ls ⟨st.messages, st.role, st.content ++ [line]⟩

/-- `parse_mock_conversations`: split on newlines and run the line loop
from the empty state. -/
def parse_mock_conversations (conversation : String) : List BaseMsg :=
  parseLoop (splitNL conversation.toList) ⟨[], [], []⟩

/-- `update_mock_conversation`: parse the markdown text and emit a `Command`
that replaces the `mock_conversations` slot wholesale. -/
def update_mock_conversation (conversation : String) : ToolResult :=
  .command ⟨none, some (parse_mock_conversations conversation)⟩
    ("Mock conversations updated (" ++ toString (parse_mock_conversations conversation).length
      ++ " messages parsed)")

/-! ## Tool-name sanitizer
(`sanitize_tool_name` in `src/agent_builder/agent_single_create.py`) -/

/-- The kept alphabet `[a-z0-9_-]` of the sanitizer's `re.sub`. -/
def isAllowed (c : Char) : Bool :=
  ('a' ≤ c && c ≤ 'z') || ('0' ≤ c && c ≤ '9') || c = '_' || c = '-'

/-- First two steps of `sanitize_tool_name`: `name.lower().replace(" ", "_")`
(`Char.toLower` models `str.lower` on its ASCII fragment, which is identity
on every character the later filter keeps). -/
def sanitizeLowered (name : String) : List Char :=
  (name.toList.map Char.toLower).map fun c => if c = ' ' then '_' else c

/-- Third step: `re.sub(r'[^a-z0-9_-]', '', sanitized)`. -/
def sanitizeStripped (name : String) : List Char :=
  (sanitizeLowered name).filter isAllowed

/-- Fourth step: `if not sanitized or sanitized[0].isdigit(): "skill_" + it`
(`Char.isDigit` agrees with Python `str.isdigit` on the filtered alphabet). -/
def sanitizePrefixed (name : String) : List Char :=
  if (sanitizeStripped name).isEmpty || ((sanitizeStripped name).headD 'a').isDigit then
    "skill_".toList ++ sanitizeStripped name
  else sanitizeStripped name

/-- `sanitize_tool_name`: the four steps above plus the final
`if not sanitized: "skill_tool"` fallback. -/
def sanitize_tool_name (name : String) : String :=
  String.mk
    (if (sanitizePrefixed name).isEmpty then "skill_tool".toList else sanitizePrefixed name)

/-! ## Python `==` on dynamic values and the instantiation gating
(`update_state_from_agent` in `app.py`) -/

/-- Python numeric value of a `bool` (`True == 1`, `False == 0`). -/
def pyNum (b : Bool) : Int := if b then 1 else 0

mutual

/-- Python `==` on embedded values: strings, numbers (bools compare equal to
their numeric value), `None`; lists element-wise in order; dicts by equal
size and, for every key of the left dict, an equal value under the same key
in the right one — insertion order is irrelevant. -/
def pyEq : Value → Value → Bool
  | .vnone, .vnone => true
  | .vstr a, .vstr b => a = b
  | .vint a, .vint b => a = b
  | .vbool a, .vbool b => a = b
  | .vbool a, .vint b => pyNum a = b
  | .vint a, .vbool b => a = pyNum b
  | .vlist a, .vlist b => pyEqList a b
  | .vdict a, .vdict b => a.length = b.length && pyEqEntries a b
  | _, _ => false

/-- Python `==` on lists: same length, equal elements in order. -/
def pyEqList : List Value → List Value → Bool
  | [], [] => true
  | x :: xs, y :: ys => pyEq x y && pyEqList xs ys
  | _, _ => false

/-- Every entry of the first dict has a `pyEq`-equal value under its key in
the second dict. -/
def pyEqEntries : List (String × Value) → List (String × Value) → Bool
  | [], _ => true
  | (k, v) :: rest, ys =>
      (match pyLookup ys k with
       | some w => pyEq v w
       | none => false)
      && pyEqEntries rest ys

end

/-- Python `==` on two dicts. -/
def pyEqDict (a b : Dict) : Bool := pyEq (.vdict a) (.vdict b)

/-- The dict form `update_state_from_agent` compares: `model_dump()` for a
validated config, the raw dict itself for a partial one. -/
def ConfigValue.toDict : ConfigValue → Dict
  | .acfg c => c.dump
  | .raw d => d

/-- The `config_changed` decision of `update_state_from_agent`: changed when
no prior config exists or the two dict forms differ under Python `==`. -/
def config_changed (old : Option ConfigValue) (new : ConfigValue) : Bool :=
  match old with
  | none => true
  | some o => !pyEqDict o.toDict new.toDict

/-- The outcome of `update_state_from_agent` on the config slot: the session
now holds the new config, and the entrance agent is (re)created exactly when
`config_changed` held. -/
def update_state_from_agent (old : Option ConfigValue) (new : ConfigValue) :
    Option ConfigValue × Bool :=
  (some new, config_changed old new)

/-! ## Spec-side constraint predicates and auxiliary definitions

`strFieldViolated`/`toolViolated`/`skillViolated`/`skillsViolated` restate
the schema's field constraints directly (required, typed, length-bounded),
independently of the validator's control flow; the theorems below relate
the validator's error list to them. -/

/-- A string field is violated when missing, non-string, or out of bounds. -/
def strFieldViolated (d : Dict) (key : String) (minL : Nat) (maxL : Option Nat) : Bool :=
  match pyLookup d key with
  | some (.vstr s) =>
      decide (s.length < minL) ||
      (match maxL with
       | some m => decide (s.length > m)
       | none => false)
  | _ => true

/-- A `Tool` item is violated when not a dict, or `name` is missing or not a
string, or `config` is present and not a dict. -/
def toolViolated (v : Value) : Bool :=
  match v with
  | .vdict d =>
      strFieldViolated d "name" 0 none ||
      (match pyLookup d "config" with
       | none => false
       | some (.vdict _) => false
       | some _ => true)
  | _ => true

/-- A `Skill` item is violated when not a dict, or any of its fields is. -/
def skillViolated (v : Value) : Bool :=
  match v with
  | .vdict d =>
      strFieldViolated d "name" 1 (some 50) ||
      strFieldViolated d "when_to_use" 10 (some 500) ||
      strFieldViolated d "prompt" 10 none ||
      (match pyLookup d "tools" with
       | none => false
       | some (.vlist xs) => xs.any toolViolated
       | some _ => true)
  | _ => true

/-- The `skills` field is violated when missing, not a list, of length ≠ 1,
or containing a violated item. -/
def skillsViolated (d : Dict) : Bool :=
  match pyLookup d "skills" with
  | some (.vlist xs) => decide (xs.length ≠ 1) || xs.any skillViolated
  | _ => true

/-- All length bounds of a validated `Skill`. -/
def skillBounds (s : Skill) : Bool :=
  decide (1 ≤ s.name.length) && decide (s.name.length ≤ 50) &&
  decide (10 ≤ s.when_to_use.length) && decide (s.when_to_use.length ≤ 500) &&
  decide (10 ≤ s.prompt.length)

/-- All length bounds of a validated `AgentConfig`. -/
def configBounds (c : AgentConfig) : Bool :=
  decide (1 ≤ c.name.length) && decide (c.name.length ≤ 100) &&
  decide (1 ≤ c.description.length) && decide (c.description.length ≤ 500) &&
  decide (10 ≤ c.system_prompt.length) &&
  c.skills.all skillBounds

mutual

/-- Reachable Python values: every nested dict has pairwise-distinct keys
(a Python dict cannot hold a duplicate key). -/
def wfB : Value → Bool
  | .vnone => true
  | .vstr _ => true
  | .vint _ => true
  | .vbool _ => true
  | .vlist xs => wfListB xs
  | .vdict kvs => decide ((kvs.map Prod.fst).Nodup) && wfEntriesB kvs

def wfListB : List Value → Bool
  | [] => true
  | x :: xs => wfB x && wfListB xs

def wfEntriesB : List (String × Value) → Bool
  | [] => true
  | (_, v) :: rest => wfB v && wfEntriesB rest

end

/-- No line of the input matches the role pattern after stripping. -/
def markerFree (s : String) : Bool :=
  (splitNL s.toList).all fun l => (matchRole (trimChars l)).isNone

/-- A complete valid candidate configuration (concrete test input). -/
def hotelDict : Dict :=
  [("name", .vstr "Hotel Agent"),
   ("description", .vstr "Books hotel rooms"),
   ("system_prompt", .vstr "You are a booking assistant."),
   ("skills", .vlist [.vdict
      [("name", .vstr "Booking"),
       ("when_to_use", .vstr "When user wants to book a room"),
       ("prompt", .vstr "Help the user book a room."),
       ("tools", .vlist [])]])]

/-- The `AgentConfig` that `hotelDict` validates to. -/
def hotelCfg : AgentConfig :=
  ⟨"Hotel Agent", "Books hotel rooms", "You are a booking assistant.",
   [⟨"Booking", "When user wants to book a room", "Help the user book a room.", []⟩]⟩

/-- A second valid candidate, materially different from `hotelDict`. -/
def travelDict : Dict :=
  [("name", .vstr "Travel Agent"),
   ("description", .vstr "Plans trips"),
   ("system_prompt", .vstr "You are a travel planner."),
   ("skills", .vlist [.vdict
      [("name", .vstr "Planning"),
       ("when_to_use", .vstr "When user wants to plan a trip"),
       ("prompt", .vstr "Help the user plan a trip."),
       ("tools", .vlist [])]])]

/-- The `AgentConfig` that `travelDict` validates to. -/
def travelCfg : AgentConfig :=
  ⟨"Travel Agent", "Plans trips", "You are a travel planner.",
   [⟨"Planning", "When user wants to plan a trip", "Help the user plan a trip.", []⟩]⟩

/-! ## Theorems -/

/-! ### Tool-name sanitizer (claims C5, C7) -/

theorem toList_mk (l : List Char) : (String.mk l).toList = l := rfl

theorem toLower_of_isAllowed (c : Char) (h : isAllowed c = true) : c.toLower = c := by
  unfold isAllowed at h
  simp only [Bool.or_eq_true, Bool.and_eq_true, decide_eq_true_eq, beq_iff_eq] at h
  have hA : ∀ a b : Char, a ≤ b ↔ a.toNat ≤ b.toNat := fun a b => Iff.rfl
  have e1 : ('a' : Char).toNat = 97 := rfl
  have e2 : ('z' : Char).toNat = 122 := rfl
  have e3 : ('0' : Char).toNat = 48 := rfl
  have e4 : ('9' : Char).toNat = 57 := rfl
  unfold Char.toLower
  rcases h with ((⟨h1, h2⟩ | ⟨h1, h2⟩) | h) | h
  · rw [hA, e1] at h1; rw [hA, e2] at h2
    rw [if_neg]; omega
  · rw [hA, e3] at h1; rw [hA, e4] at h2
    rw [if_neg]; omega
  · subst h; decide
  · subst h; decide

theorem ne_space_of_isAllowed (c : Char) (h : isAllowed c = true) : c ≠ ' ' := by
  intro he; subst he; exact absurd h (by decide)

theorem prefixed_nonempty (x : String) : (sanitizePrefixed x).isEmpty = false := by
  unfold sanitizePrefixed
  by_cases h1 : ((sanitizeStripped x).isEmpty || ((sanitizeStripped x).headD 'a').isDigit) = true
  · rw [if_pos h1]; simp
  · rw [if_neg h1]
    rcases Bool.or_eq_false_iff.mp (Bool.eq_false_iff.mpr h1) with ⟨ha, _⟩
    exact ha

theorem sanitize_toList (x : String) :
    (sanitize_tool_name x).toList = sanitizePrefixed x := by
  unfold sanitize_tool_name
  rw [if_neg (by simp [prefixed_nonempty x]), toList_mk]

theorem sanitize_all_allowed (x : String) :
    (sanitize_tool_name x).toList.all isAllowed = true := by
  rw [sanitize_toList]
  have hstr : (sanitizeStripped x).all isAllowed = true := by
    rw [List.all_eq_true]
    intro c hc
    exact List.of_mem_filter hc
  unfold sanitizePrefixed
  by_cases h1 : ((sanitizeStripped x).isEmpty || ((sanitizeStripped x).headD 'a').isDigit) = true
  · rw [if_pos h1, List.all_append, hstr]
    decide
  · rw [if_neg h1]
    exact hstr

theorem sanitize_nonempty (x : String) :
    (sanitize_tool_name x).toList.isEmpty = false := by
  rw [sanitize_toList]
  exact prefixed_nonempty x

theorem sanitize_head_not_digit (x : String) :
    (((sanitize_tool_name x).toList.headD 'a').isDigit) = false := by
  rw [sanitize_toList]
  unfold sanitizePrefixed
  by_cases h1 : ((sanitizeStripped x).isEmpty || ((sanitizeStripped x).headD 'a').isDigit) = true
  · rw [if_pos h1]; rfl
  · rw [if_neg h1]
    rcases Bool.or_eq_false_iff.mp (Bool.eq_false_iff.mpr h1) with ⟨_, hb⟩
    exact hb

theorem sanitize_idempotent_aux (x : String) :
    sanitize_tool_name (sanitize_tool_name x) = sanitize_tool_name x := by
  have hall := sanitize_all_allowed x
  have hne := sanitize_nonempty x
  have hnd := sanitize_head_not_digit x
  have hmem : ∀ c ∈ (sanitize_tool_name x).toList, isAllowed c = true := List.all_eq_true.mp hall
  have hlowered : sanitizeLowered (sanitize_tool_name x) = (sanitize_tool_name x).toList := by
    unfold sanitizeLowered
    rw [List.map_congr_left fun c hc => toLower_of_isAllowed c (hmem c hc), List.map_id']
    rw [List.map_congr_left fun c hc => if_neg (ne_space_of_isAllowed c (hmem c hc)), List.map_id']
  have hstripped : sanitizeStripped (sanitize_tool_name x) = (sanitize_tool_name x).toList := by
    unfold sanitizeStripped
    rw [hlowered]
    exact List.filter_eq_self.mpr hmem
  have hprefixed : sanitizePrefixed (sanitize_tool_name x) = (sanitize_tool_name x).toList := by
    unfold sanitizePrefixed
    rw [hstripped]
    rw [if_neg]
    intro hc
    simp only [Bool.or_eq_true] at hc
    rcases hc with ha | hb
    · rw [hne] at ha; exact absurd ha (by simp)
    · rw [hnd] at hb; exact absurd hb (by simp)
  rw [show sanitize_tool_name (sanitize_tool_name x) =
        String.mk (if (sanitizePrefixed (sanitize_tool_name x)).isEmpty then
          "skill_tool".toList else sanitizePrefixed (sanitize_tool_name x)) from rfl]
  rw [hprefixed]
  rw [if_neg (by rw [show ((sanitize_tool_name x).toList.isEmpty = true) =
        ((sanitize_tool_name x).toList.isEmpty = true) from rfl, hne]; simp)]
  rfl

/-- C5 (counterexample): the sanitizer does not return the literal
`skill_tool` on an input that strips to empty — `sanitize("你好")` is
`"skill_"` (the digit/empty branch already prefixed `skill_` onto the empty
string, so the final fallback never fires). -/
theorem sanitize_cjk_is_skill_underscore :
    (sanitize_tool_name "你好" == "skill_tool") = false ∧
    sanitize_tool_name "你好" = "skill_" := by
  constructor
  · rfl
  · rfl

/-- C5 (amended): `sanitize("Book a Room!") = "book_a_room"`,
`sanitize("123abc") = "skill_123abc"`, and on an input consisting only of
characters outside `[a-z0-9_-]` (such as `"你好"`) the result is the bare
prefix `"skill_"`, not `"skill_tool"`. -/
theorem sanitize_concrete_examples :
    sanitize_tool_name "Book a Room!" = "book_a_room" ∧
    sanitize_tool_name "123abc" = "skill_123abc" ∧
    sanitize_tool_name "你好" = "skill_" := by
  refine ⟨?_, ?_, ?_⟩ <;> rfl

/-- C7: for every input string the sanitizer's output is a non-empty string
over the alphabet `[a-z0-9_-]` (so it matches `^[a-z0-9_-]+$`), and the
sanitizer is idempotent. -/
theorem sanitize_pattern_and_idempotent (x : String) :
    (sanitize_tool_name x).toList.isEmpty = false ∧
    (sanitize_tool_name x).toList.all isAllowed = true ∧
    sanitize_tool_name (sanitize_tool_name x) = sanitize_tool_name x :=
  ⟨sanitize_nonempty x, sanitize_all_allowed x, sanitize_idempotent_aux x⟩

/-! ### Dict merge and the incremental-update operation (claims C2, C9, C10) -/

theorem pyLookup_append (a b : Dict) (k : String) :
    pyLookup (a ++ b) k = ((pyLookup a k).orElse fun _ => pyLookup b k) := by
  induction a with
  | nil => cases h : pyLookup b k <;> simp [pyLookup, Option.orElse, h]
  | cons kv rest ih =>
      obtain ⟨k', v⟩ := kv
      by_cases h : k' = k
      · simp [pyLookup, h, Option.orElse]
      · simp [pyLookup, h, ih]

theorem pyLookup_map_override (a b : Dict) (k : String) :
    pyLookup (a.map fun kv =>
      match pyLookup b kv.1 with
      | some v => (kv.1, v)
      | none => kv) k
    = (pyLookup a k).map fun v => (pyLookup b k).getD v := by
  induction a with
  | nil => simp [pyLookup]
  | cons kv rest ih =>
      obtain ⟨k', v'⟩ := kv
      by_cases h : k' = k
      · subst h
        cases hb : pyLookup b k' <;> simp [pyLookup, hb]
      · cases hb : pyLookup b k' <;> simp [pyLookup, h, hb, ih]

theorem pyLookup_filter_fresh (a b : Dict) (k : String) :
    pyLookup (b.filter fun kv => (pyLookup a kv.1).isNone) k
    = if (pyLookup a k).isNone then pyLookup b k else none := by
  induction b with
  | nil => simp [pyLookup]
  | cons kv rest ih =>
      obtain ⟨k', w⟩ := kv
      by_cases h : k' = k
      · subst h
        cases ha : pyLookup a k' <;> simp [List.filter, pyLookup, ha, ih]
      · cases ha : pyLookup a k' <;> cases hak : pyLookup a k <;>
          simp [List.filter, pyLookup, h, ha, hak, ih]

/-- `{**a, **b}` looks up like `b` first, then `a`. -/
theorem pyLookup_dictMerge (a b : Dict) (k : String) :
    pyLookup (dictMerge a b) k = ((pyLookup b k).orElse fun _ => pyLookup a k) := by
  unfold dictMerge
  rw [pyLookup_append, pyLookup_map_override, pyLookup_filter_fresh]
  cases ha : pyLookup a k <;> cases hb : pyLookup b k <;> simp [Option.orElse]

/-- C2: updating with a dict patch shallow-merges the patch over the stored
value's dict form and then attempts validation — the store afterwards holds
the validated `AgentConfig` exactly when the merge validates and the raw
merged dict otherwise; in the merged dict every patch key has the patch's
value (nested values such as `skills` replaced wholesale) and every other
key keeps the stored value; the operation always produces a stored value
(it never fails); and the `update_agent_config` tool routes a dict patch
into exactly this reducer while leaving the mock conversation alone. -/
theorem update_shallow_merge_then_validate (old : Option ConfigValue) (patch : Dict) :
    (agent_config_reducer old (some (.raw patch)) =
      match validateAgentConfig (dictMerge (currentData old) patch) with
      | .ok c => some (.acfg c)
      | .error _ => some (.raw (dictMerge (currentData old) patch))) ∧
    (∀ k, pyLookup (dictMerge (currentData old) patch) k =
      ((pyLookup patch k).orElse fun _ => pyLookup (currentData old) k)) ∧
    (agent_config_reducer old (some (.raw patch))).isSome = true ∧
    (∀ st : AgentStateM,
      applyToolResult st (update_agent_config (.vdict patch)) =
        ⟨agent_config_reducer st.agent_config (some (.raw patch)),
         st.mock_conversations⟩) := by
  refine ⟨rfl, fun k => pyLookup_dictMerge _ patch k, ?_, fun st => rfl⟩
  have hred : agent_config_reducer old (some (.raw patch)) =
      match validateAgentConfig (dictMerge (currentData old) patch) with
      | .ok c => some (.acfg c)
      | .error _ => some (.raw (dictMerge (currentData old) patch)) := rfl
  rw [hred]
  cases validateAgentConfig (dictMerge (currentData old) patch) <;> rfl

/-- C9: the configuration reducer with a `None` update returns the old
stored value unchanged, whatever it is. -/
theorem reducer_none_keeps_old (old : Option ConfigValue) :
    agent_config_reducer old none = old := rfl

/-- C10: a non-dict patch makes `update_agent_config` return the error
string `"Error: updates must be a dictionary"` and no `Command`, so the
stored configuration and mock conversation are untouched. -/
theorem update_non_dict_rejected (v : Value) (h : v.isDict = false) :
    update_agent_config v = .errorText "Error: updates must be a dictionary" ∧
    ∀ st : AgentStateM, applyToolResult st (update_agent_config v) = st := by
  cases v with
  | vdict d => exact absurd h (by simp [Value.isDict])
  | vnone => exact ⟨rfl, fun st => rfl⟩
  | vstr s => exact ⟨rfl, fun st => rfl⟩
  | vint n => exact ⟨rfl, fun st => rfl⟩
  | vbool b => exact ⟨rfl, fun st => rfl⟩
  | vlist xs => exact ⟨rfl, fun st => rfl⟩

/-- Witness for C10 at the concrete non-dict patch `"nope"` and a concrete
store state. -/
theorem update_non_dict_rejected_witness :
    update_agent_config (.vstr "nope") = .errorText "Error: updates must be a dictionary" ∧
    applyToolResult ⟨some (.raw hotelDict), some [.human "hi"]⟩
        (update_agent_config (.vstr "nope")) =
      ⟨some (.raw hotelDict), some [.human "hi"]⟩ :=
  ⟨(update_non_dict_rejected (.vstr "nope") rfl).1,
   (update_non_dict_rejected (.vstr "nope") rfl).2 _⟩

/-! ### Schema validation (claims C1, C3) -/

/-- `strField` succeeds with a within-bounds string exactly when the
spec-side constraint is met, and fails with one error located at `path`
exactly when it is violated. -/
theorem strField_cases (d : Dict) (key : String) (minL : Nat) (maxL : Option Nat)
    (path : List String) :
    (strFieldViolated d key minL maxL = false ∧
      ∃ s, strField d key minL maxL path = .ok s ∧ pyLookup d key = some (.vstr s) ∧
        minL ≤ s.length ∧ ∀ m, maxL = some m → s.length ≤ m) ∨
    (strFieldViolated d key minL maxL = true ∧
      ∃ e, strField d key minL maxL path = .error [e] ∧ e.loc = path) := by
  unfold strField strFieldViolated
  cases hv : pyLookup d key with
  | none => exact Or.inr ⟨rfl, ⟨path, "Field required"⟩, rfl, rfl⟩
  | some v =>
      cases v with
      | vstr s =>
          by_cases h1 : s.length < minL
          · exact Or.inr ⟨by simp [h1],
              ⟨path, "String should have at least " ++ toString minL ++ " characters"⟩,
              by simp [h1], rfl⟩
          · cases maxL with
            | none =>
                exact Or.inl ⟨by simp [h1], s, by simp [h1], rfl, by omega,
                  by intro m hm; cases hm⟩
            | some m =>
                by_cases h2 : s.length > m
                · exact Or.inr ⟨by simp [h1, h2],
                    ⟨path, "String should have at most " ++ toString m ++ " characters"⟩,
                    by simp [h1, h2], rfl⟩
                · exact Or.inl ⟨by simp [h1, h2], s, by simp [h1, h2], rfl, by omega,
                    by intro m' hm'; cases hm'; omega⟩
      | vnone => exact Or.inr ⟨rfl, ⟨path, "Input should be a valid string"⟩, rfl, rfl⟩
      | vint n => exact Or.inr ⟨rfl, ⟨path, "Input should be a valid string"⟩, rfl, rfl⟩
      | vbool b => exact Or.inr ⟨rfl, ⟨path, "Input should be a valid string"⟩, rfl, rfl⟩
      | vlist xs => exact Or.inr ⟨rfl, ⟨path, "Input should be a valid string"⟩, rfl, rfl⟩
      | vdict kvs => exact Or.inr ⟨rfl, ⟨path, "Input should be a valid string"⟩, rfl, rfl⟩

/-- `strField` in collected-errors form: no error and a within-bounds value
iff the constraint holds, one error located at `path` iff violated. -/
theorem strField_facts (d : Dict) (key : String) (minL : Nat) (maxL : Option Nat)
    (path : List String) :
    (strFieldViolated d key minL maxL = false ∧
      errsOf (strField d key minL maxL path) = [] ∧
      minL ≤ (extractOk "" (strField d key minL maxL path)).length ∧
      ∀ m, maxL = some m → (extractOk "" (strField d key minL maxL path)).length ≤ m) ∨
    (strFieldViolated d key minL maxL = true ∧
      ∃ e, errsOf (strField d key minL maxL path) = [e] ∧ e.loc = path) := by
  rcases strField_cases d key minL maxL path with
    ⟨hv, s, hok, _, hmin, hmax⟩ | ⟨hv, e, herr, hloc⟩
  · left
    rw [hok]
    exact ⟨hv, rfl, hmin, hmax⟩
  · right
    rw [herr]
    exact ⟨hv, e, rfl, hloc⟩

/-- The `config` field of `Tool` in collected-errors form. -/
theorem toolConfigR_facts (path : List String) (d : Dict) :
    ((match pyLookup d "config" with
      | none => false
      | some (.vdict _) => false
      | some _ => true) = false ∧ errsOf (toolConfigR path d) = []) ∨
    ((match pyLookup d "config" with
      | none => false
      | some (.vdict _) => false
      | some _ => true) = true ∧
      ∃ e, errsOf (toolConfigR path d) = [e] ∧ e.loc = path ++ ["config"]) := by
  unfold toolConfigR
  cases hv : pyLookup d "config" with
  | none => exact Or.inl ⟨rfl, rfl⟩
  | some w =>
      cases w with
      | vdict kvs => exact Or.inl ⟨rfl, rfl⟩
      | vnone => exact Or.inr ⟨rfl, _, rfl, rfl⟩
      | vstr s => exact Or.inr ⟨rfl, _, rfl, rfl⟩
      | vint n => exact Or.inr ⟨rfl, _, rfl, rfl⟩
      | vbool b => exact Or.inr ⟨rfl, _, rfl, rfl⟩
      | vlist xs => exact Or.inr ⟨rfl, _, rfl, rfl⟩

/-- `validateTool` decided by the spec-side `toolViolated` predicate. -/
theorem validateTool_facts (path : List String) (v : Value) :
    (toolViolated v = false ∧ ∃ t, validateTool path v = .ok t ∧ True) ∨
    (toolViolated v = true ∧ ∃ es, validateTool path v = .error es ∧ es ≠ [] ∧
      ∀ e ∈ es, ∃ suf, e.loc = path ++ suf) := by
  cases v with
  | vdict d =>
      rcases strField_facts d "name" 0 none (path ++ ["name"]) with
        ⟨hnv, hne, -, -⟩ | ⟨hnv, en, hnerr, hnloc⟩ <;>
      rcases toolConfigR_facts path d with ⟨hcv, hce⟩ | ⟨hcv, ec, hcerr, hcloc⟩
      · left
        refine ⟨by simp [toolViolated, hnv, hcv],
          ⟨extractOk "" (toolNameR path d), extractOk [] (toolConfigR path d)⟩, ?_, trivial⟩
        have : (errsOf (toolNameR path d) ++ errsOf (toolConfigR path d)).isEmpty = true := by
          simp [toolNameR, hne, hce]
        simp [validateTool, this]
      · right
        refine ⟨by simp [toolViolated, hcv], errsOf (toolNameR path d) ++ errsOf (toolConfigR path d), ?_, ?_, ?_⟩
        · have : (errsOf (toolNameR path d) ++ errsOf (toolConfigR path d)).isEmpty = false := by
            simp [toolNameR, hne, hcerr]
          simp [validateTool, this]
        · simp [toolNameR, hne, hcerr]
        · intro e he
          simp [toolNameR, hne, hcerr] at he
          subst he
          exact ⟨["config"], hcloc⟩
      · right
        refine ⟨by simp [toolViolated, hnv], errsOf (toolNameR path d) ++ errsOf (toolConfigR path d), ?_, ?_, ?_⟩
        · have : (errsOf (toolNameR path d) ++ errsOf (toolConfigR path d)).isEmpty = false := by
            simp [toolNameR, hnerr]
          simp [validateTool, this]
        · simp [toolNameR, hnerr]
        · intro e he
          simp [toolNameR, hnerr, hce, List.mem_append] at he
          subst he
          exact ⟨["name"], hnloc⟩
      · right
        refine ⟨by simp [toolViolated, hnv], errsOf (toolNameR path d) ++ errsOf (toolConfigR path d), ?_, ?_, ?_⟩
        · have : (errsOf (toolNameR path d) ++ errsOf (toolConfigR path d)).isEmpty = false := by
            simp [toolNameR, hnerr]
          simp [validateTool, this]
        · simp [toolNameR, hnerr]
        · intro e he
          simp [toolNameR, hnerr, hcerr, List.mem_append] at he
          rcases he with he | he <;> subst he
          · exact ⟨["name"], hnloc⟩
          · exact ⟨["config"], hcloc⟩
  | vnone => exact Or.inr ⟨rfl, _, rfl, by simp, by intro e he; simp at he; subst he; exact ⟨[], by simp⟩⟩
  | vstr s => exact Or.inr ⟨rfl, _, rfl, by simp, by intro e he; simp at he; subst he; exact ⟨[], by simp⟩⟩
  | vint n => exact Or.inr ⟨rfl, _, rfl, by simp, by intro e he; simp at he; subst he; exact ⟨[], by simp⟩⟩
  | vbool b => exact Or.inr ⟨rfl, _, rfl, by simp, by intro e he; simp at he; subst he; exact ⟨[], by simp⟩⟩
  | vlist xs => exact Or.inr ⟨rfl, _, rfl, by simp, by intro e he; simp at he; subst he; exact ⟨[], by simp⟩⟩

/-- `validateItems` decided item-wise: given that the item validator is
decided by predicate `P` (producing `Q`-good values on success and
path-extending errors on failure), the list validator succeeds iff no item
violates `P`, and on failure collects every item's errors. -/
theorem validateItems_facts {α : Type} (f : List String → Value → Except (List VError) α)
    (dft : α) (P : Value → Bool) (Q : α → Bool)
    (hf : ∀ path v,
      (P v = false ∧ ∃ a, f path v = .ok a ∧ Q a = true) ∨
      (P v = true ∧ ∃ es, f path v = .error es ∧ es ≠ [] ∧
        ∀ e ∈ es, ∃ suf, e.loc = path ++ suf))
    (path : List String) (i : Nat) (xs : List Value) :
    (xs.any P = false ∧ ∃ as, validateItems f dft path i xs = .ok as ∧
      as.length = xs.length ∧ as.all Q = true) ∨
    (xs.any P = true ∧ ∃ es, validateItems f dft path i xs = .error es ∧ es ≠ [] ∧
      ∀ e ∈ es, ∃ suf, e.loc = path ++ suf) := by
  induction xs generalizing i with
  | nil => exact Or.inl ⟨rfl, [], rfl, rfl, rfl⟩
  | cons x rest ih =>
      have hrest_locs : ∀ e ∈ errsOf (validateItems f dft path (i + 1) rest),
          ∃ suf, e.loc = path ++ suf := by
        rcases ih (i + 1) with ⟨-, as, har, -, -⟩ | ⟨-, esr, her, -, hlocr⟩
        · intro e he
          rw [har] at he
          simp [errsOf] at he
        · intro e he
          rw [her] at he
          exact hlocr e he
      rcases hf (path ++ [toString i]) x with ⟨hPx, a, hax, hQa⟩ | ⟨hPx, esx, hex, hnex, hlocx⟩
      · rcases ih (i + 1) with ⟨hPr, as, har, hlen, hQs⟩ | ⟨hPr, esr, her, hner, hlocr⟩
        · left
          have hemp : (errsOf (f (path ++ [toString i]) x)
              ++ errsOf (validateItems f dft path (i + 1) rest)).isEmpty = true := by
            rw [hax, har]; rfl
          refine ⟨by simp [hPx, hPr], a :: as, ?_, by simp [hlen], by simp [hQa, hQs]⟩
          show validateItems f dft path i (x :: rest) = Except.ok (a :: as)
          rw [show validateItems f dft path i (x :: rest) =
            (if (errsOf (f (path ++ [toString i]) x)
                ++ errsOf (validateItems f dft path (i + 1) rest)).isEmpty then
              .ok (extractOk dft (f (path ++ [toString i]) x)
                   :: extractOk [] (validateItems f dft path (i + 1) rest))
            else
              .error (errsOf (f (path ++ [toString i]) x)
                      ++ errsOf (validateItems f dft path (i + 1) rest))) from rfl]
          rw [if_pos hemp, hax, har]
          rfl
        · right
          have hemp : (errsOf (f (path ++ [toString i]) x)
              ++ errsOf (validateItems f dft path (i + 1) rest)).isEmpty = false := by
            rw [hax, her]
            show ([] ++ esr).isEmpty = false
            rw [List.nil_append]
            cases esr with
            | nil => exact absurd rfl hner
            | cons hd tl => rfl
          refine ⟨by simp [hPr], errsOf (f (path ++ [toString i]) x)
            ++ errsOf (validateItems f dft path (i + 1) rest), ?_, ?_, ?_⟩
          · show validateItems f dft path i (x :: rest) = _
            rw [show validateItems f dft path i (x :: rest) =
              (if (errsOf (f (path ++ [toString i]) x)
                  ++ errsOf (validateItems f dft path (i + 1) rest)).isEmpty then
                .ok (extractOk dft (f (path ++ [toString i]) x)
                     :: extractOk [] (validateItems f dft path (i + 1) rest))
              else
                .error (errsOf (f (path ++ [toString i]) x)
                        ++ errsOf (validateItems f dft path (i + 1) rest))) from rfl]
            rw [if_neg (by simp [hemp])]
          · rw [hax, her]
            simp only [errsOf, List.nil_append]
            exact hner
          · intro e he
            rw [hax] at he
            simp only [errsOf, List.nil_append] at he
            exact hrest_locs e he
      · right
        have hemp : (errsOf (f (path ++ [toString i]) x)
            ++ errsOf (validateItems f dft path (i + 1) rest)).isEmpty = false := by
          rw [hex]
          cases esx with
          | nil => exact absurd rfl hnex
          | cons hd tl => rfl
        refine ⟨by simp [hPx], errsOf (f (path ++ [toString i]) x)
          ++ errsOf (validateItems f dft path (i + 1) rest), ?_, ?_, ?_⟩
        · show validateItems f dft path i (x :: rest) = _
          rw [show validateItems f dft path i (x :: rest) =
            (if (errsOf (f (path ++ [toString i]) x)
                ++ errsOf (validateItems f dft path (i + 1) rest)).isEmpty then
              .ok (extractOk dft (f (path ++ [toString i]) x)
                   :: extractOk [] (validateItems f dft path (i + 1) rest))
            else
              .error (errsOf (f (path ++ [toString i]) x)
                      ++ errsOf (validateItems f dft path (i + 1) rest))) from rfl]
          rw [if_neg (by simp [hemp])]
        · rw [hex]
          simp only [errsOf]
          intro hc
          rw [List.append_eq_nil] at hc
          exact hnex hc.1
        · intro e he
          rw [hex] at he
          simp only [errsOf] at he
          rcases List.mem_append.mp he with h1 | h2
          · rcases hlocx e h1 with ⟨suf, hsuf⟩
            exact ⟨toString i :: suf, by rw [hsuf, List.append_assoc]; rfl⟩
          · exact hrest_locs e h2

/-- The `tools` field of `Skill` in collected-errors form. -/
theorem skillToolsR_facts (path : List String) (d : Dict) :
    ((match pyLookup d "tools" with
      | none => false
      | some (.vlist xs) => xs.any toolViolated
      | some _ => true) = false ∧ errsOf (skillToolsR path d) = []) ∨
    ((match pyLookup d "tools" with
      | none => false
      | some (.vlist xs) => xs.any toolViolated
      | some _ => true) = true ∧ errsOf (skillToolsR path d) ≠ [] ∧
      ∀ e ∈ errsOf (skillToolsR path d), ∃ suf, e.loc = path ++ suf) := by
  unfold skillToolsR
  cases hv : pyLookup d "tools" with
  | none => exact Or.inl ⟨rfl, rfl⟩
  | some w =>
      cases w with
      | vlist xs =>
          have hf : ∀ p v,
              (toolViolated v = false ∧ ∃ a, validateTool p v = .ok a ∧
                (fun _ : Tool => true) a = true) ∨
              (toolViolated v = true ∧ ∃ es, validateTool p v = .error es ∧ es ≠ [] ∧
                ∀ e ∈ es, ∃ suf, e.loc = p ++ suf) := by
            intro p v
            rcases validateTool_facts p v with ⟨h1, t, h2, -⟩ | h
            · exact Or.inl ⟨h1, t, h2, rfl⟩
            · exact Or.inr h
          rcases validateItems_facts validateTool dfltTool toolViolated (fun _ => true) hf
              (path ++ ["tools"]) 0 xs with ⟨hany, as, har, -, -⟩ | ⟨hany, es, her, hne, hlocs⟩
          · left
            show xs.any toolViolated = false ∧
              errsOf (validateItems validateTool dfltTool (path ++ ["tools"]) 0 xs) = []
            rw [har]
            exact ⟨hany, rfl⟩
          · right
            show xs.any toolViolated = true ∧
              errsOf (validateItems validateTool dfltTool (path ++ ["tools"]) 0 xs) ≠ [] ∧
              ∀ e ∈ errsOf (validateItems validateTool dfltTool (path ++ ["tools"]) 0 xs),
                ∃ suf, e.loc = path ++ suf
            rw [her]
            refine ⟨hany, hne, ?_⟩
            intro e he
            rcases hlocs e he with ⟨suf, hsuf⟩
            exact ⟨"tools" :: suf, by rw [hsuf, List.append_assoc]; rfl⟩
      | vnone =>
          refine Or.inr ⟨rfl, by simp [errsOf], ?_⟩
          intro e he
          simp [errsOf] at he
          subst he
          exact ⟨["tools"], rfl⟩
      | vstr s =>
          refine Or.inr ⟨rfl, by simp [errsOf], ?_⟩
          intro e he
          simp [errsOf] at he
          subst he
          exact ⟨["tools"], rfl⟩
      | vint n =>
          refine Or.inr ⟨rfl, by simp [errsOf], ?_⟩
          intro e he
          simp [errsOf] at he
          subst he
          exact ⟨["tools"], rfl⟩
      | vbool b =>
          refine Or.inr ⟨rfl, by simp [errsOf], ?_⟩
          intro e he
          simp [errsOf] at he
          subst he
          exact ⟨["tools"], rfl⟩
      | vdict kvs =>
          refine Or.inr ⟨rfl, by simp [errsOf], ?_⟩
          intro e he
          simp [errsOf] at he
          subst he
          exact ⟨["tools"], rfl⟩

/-- `validateSkill` decided by the spec-side `skillViolated` predicate:
success yields a skill satisfying all its length bounds, failure yields a
non-empty error list whose paths all extend `path`. -/
theorem validateSkill_facts (path : List String) (v : Value) :
    (skillViolated v = false ∧ ∃ s, validateSkill path v = .ok s ∧ skillBounds s = true) ∨
    (skillViolated v = true ∧ ∃ es, validateSkill path v = .error es ∧ es ≠ [] ∧
      ∀ e ∈ es, ∃ suf, e.loc = path ++ suf) := by
  cases v with
  | vdict d =>
      have hred : validateSkill path (.vdict d) =
          (if (skillErrs path d).isEmpty then
            .ok ⟨extractOk "" (skillNameR path d), extractOk "" (skillWtuR path d),
                 extractOk "" (skillPromptR path d), extractOk [] (skillToolsR path d)⟩
          else .error (skillErrs path d)) := rfl
      by_cases hemp : (skillErrs path d).isEmpty = true
      · left
        have he : skillErrs path d = [] := by
          cases hc : skillErrs path d with
          | nil => rfl
          | cons hd tl => rw [hc] at hemp; exact absurd hemp (by simp)
        unfold skillErrs at he
        have h1 := List.append_eq_nil.mp he
        have h2 := List.append_eq_nil.mp h1.1
        have h3 := List.append_eq_nil.mp h2.1
        have hE1 := h3.1
        have hE2 := h3.2
        have hE3 := h2.2
        have hE4 := h1.2
        have hok1 : strFieldViolated d "name" 1 (some 50) = false ∧
            1 ≤ (extractOk "" (strField d "name" 1 (some 50) (path ++ ["name"]))).length ∧
            ∀ m, (some 50 : Option Nat) = some m →
              (extractOk "" (strField d "name" 1 (some 50) (path ++ ["name"]))).length ≤ m := by
          rcases strField_facts d "name" 1 (some 50) (path ++ ["name"]) with
            ⟨hv1, -, hb1a, hb1b⟩ | ⟨-, e1, herr1, -⟩
          · exact ⟨hv1, hb1a, hb1b⟩
          · rw [show errsOf (skillNameR path d)
              = errsOf (strField d "name" 1 (some 50) (path ++ ["name"])) from rfl, herr1] at hE1
            cases hE1
        obtain ⟨hv1, hb1a, hb1b⟩ := hok1
        have hok2 : strFieldViolated d "when_to_use" 10 (some 500) = false ∧
            10 ≤ (extractOk "" (strField d "when_to_use" 10 (some 500) (path ++ ["when_to_use"]))).length ∧
            ∀ m, (some 500 : Option Nat) = some m →
              (extractOk "" (strField d "when_to_use" 10 (some 500) (path ++ ["when_to_use"]))).length ≤ m := by
          rcases strField_facts d "when_to_use" 10 (some 500) (path ++ ["when_to_use"]) with
            ⟨hv2, -, hb2a, hb2b⟩ | ⟨-, e2, herr2, -⟩
          · exact ⟨hv2, hb2a, hb2b⟩
          · rw [show errsOf (skillWtuR path d)
              = errsOf (strField d "when_to_use" 10 (some 500) (path ++ ["when_to_use"])) from rfl,
              herr2] at hE2
            cases hE2
        obtain ⟨hv2, hb2a, hb2b⟩ := hok2
        have hok3 : strFieldViolated d "prompt" 10 none = false ∧
            10 ≤ (extractOk "" (strField d "prompt" 10 none (path ++ ["prompt"]))).length := by
          rcases strField_facts d "prompt" 10 none (path ++ ["prompt"]) with
            ⟨hv3, -, hb3a, -⟩ | ⟨-, e3, herr3, -⟩
          · exact ⟨hv3, hb3a⟩
          · rw [show errsOf (skillPromptR path d)
              = errsOf (strField d "prompt" 10 none (path ++ ["prompt"])) from rfl, herr3] at hE3
            cases hE3
        obtain ⟨hv3, hb3a⟩ := hok3
        have hv4 : (match pyLookup d "tools" with
            | none => false
            | some (.vlist xs) => xs.any toolViolated
            | some _ => true) = false := by
          rcases skillToolsR_facts path d with ⟨hv4, -⟩ | ⟨-, hne4, -⟩
          · exact hv4
          · exact absurd hE4 hne4
        refine ⟨by simp [skillViolated, hv1, hv2, hv3, hv4], _, by rw [hred, if_pos hemp], ?_⟩
        have hb1 := hb1b 50 rfl
        have hb2 := hb2b 500 rfl
        simp only [skillBounds, Bool.and_eq_true, decide_eq_true_eq]
        exact ⟨⟨⟨⟨hb1a, hb1⟩, hb2a⟩, hb2⟩, hb3a⟩
      · right
        have hiff : ∀ b : Bool, b ≠ true → b = false := by intro b hb; cases b; rfl; exact absurd rfl hb
        refine ⟨?_, skillErrs path d, by rw [hred, if_neg hemp], ?_, ?_⟩
        · by_contra hcon
          have hsv : skillViolated (.vdict d) = false := hiff _ hcon
          simp only [skillViolated, Bool.or_eq_false_iff] at hsv
          obtain ⟨⟨⟨hv1, hv2⟩, hv3⟩, hv4⟩ := hsv
          have hE1 : errsOf (skillNameR path d) = [] := by
            rcases strField_facts d "name" 1 (some 50) (path ++ ["name"]) with
              ⟨-, hh, -, -⟩ | ⟨hvv, -, -⟩
            · exact hh
            · rw [hv1] at hvv; cases hvv
          have hE2 : errsOf (skillWtuR path d) = [] := by
            rcases strField_facts d "when_to_use" 10 (some 500) (path ++ ["when_to_use"]) with
              ⟨-, hh, -, -⟩ | ⟨hvv, -, -⟩
            · exact hh
            · rw [hv2] at hvv; cases hvv
          have hE3 : errsOf (skillPromptR path d) = [] := by
            rcases strField_facts d "prompt" 10 none (path ++ ["prompt"]) with
              ⟨-, hh, -, -⟩ | ⟨hvv, -, -⟩
            · exact hh
            · rw [hv3] at hvv; cases hvv
          have hE4 : errsOf (skillToolsR path d) = [] := by
            rcases skillToolsR_facts path d with ⟨-, hh⟩ | ⟨hvv, -, -⟩
            · exact hh
            · rw [hv4] at hvv; cases hvv
          have : skillErrs path d = [] := by
            unfold skillErrs
            rw [hE1, hE2, hE3, hE4]
            rfl
          rw [this] at hemp
          exact hemp rfl
        · intro hc
          rw [hc] at hemp
          exact hemp rfl
        · intro e he
          unfold skillErrs at he
          rcases List.mem_append.mp he with he123 | he4
          · rcases List.mem_append.mp he123 with he12 | he3
            · rcases List.mem_append.mp he12 with he1 | he2
              · rcases strField_facts d "name" 1 (some 50) (path ++ ["name"]) with
                  ⟨-, hh, -, -⟩ | ⟨-, e1, herr1, hloc1⟩
                · rw [show errsOf (skillNameR path d)
                    = errsOf (strField d "name" 1 (some 50) (path ++ ["name"])) from rfl, hh] at he1
                  cases he1
                · rw [show errsOf (skillNameR path d)
                    = errsOf (strField d "name" 1 (some 50) (path ++ ["name"])) from rfl, herr1] at he1
                  rcases List.mem_singleton.mp he1 with rfl
                  exact ⟨["name"], hloc1⟩
              · rcases strField_facts d "when_to_use" 10 (some 500) (path ++ ["when_to_use"]) with
                  ⟨-, hh, -, -⟩ | ⟨-, e2, herr2, hloc2⟩
                · rw [show errsOf (skillWtuR path d)
                    = errsOf (strField d "when_to_use" 10 (some 500) (path ++ ["when_to_use"])) from rfl,
                    hh] at he2
                  cases he2
                · rw [show errsOf (skillWtuR path d)
                    = errsOf (strField d "when_to_use" 10 (some 500) (path ++ ["when_to_use"])) from rfl,
                    herr2] at he2
                  rcases List.mem_singleton.mp he2 with rfl
                  exact ⟨["when_to_use"], hloc2⟩
            · rcases strField_facts d "prompt" 10 none (path ++ ["prompt"]) with
                ⟨-, hh, -, -⟩ | ⟨-, e3, herr3, hloc3⟩
              · rw [show errsOf (skillPromptR path d)
                  = errsOf (strField d "prompt" 10 none (path ++ ["prompt"])) from rfl, hh] at he3
                cases he3
              · rw [show errsOf (skillPromptR path d)
                  = errsOf (strField d "prompt" 10 none (path ++ ["prompt"])) from rfl, herr3] at he3
                rcases List.mem_singleton.mp he3 with rfl
                exact ⟨["prompt"], hloc3⟩
          · rcases skillToolsR_facts path d with ⟨-, hh⟩ | ⟨-, -, hlocs⟩
            · rw [hh] at he4
              cases he4
            · exact hlocs e he4
  | vnone =>
      refine Or.inr ⟨rfl, _, rfl, by simp, ?_⟩
      intro e he
      rcases List.mem_singleton.mp he with rfl
      exact ⟨[], by simp⟩
  | vstr s =>
      refine Or.inr ⟨rfl, _, rfl, by simp, ?_⟩
      intro e he
      rcases List.mem_singleton.mp he with rfl
      exact ⟨[], by simp⟩
  | vint n =>
      refine Or.inr ⟨rfl, _, rfl, by simp, ?_⟩
      intro e he
      rcases List.mem_singleton.mp he with rfl
      exact ⟨[], by simp⟩
  | vbool b =>
      refine Or.inr ⟨rfl, _, rfl, by simp, ?_⟩
      intro e he
      rcases List.mem_singleton.mp he with rfl
      exact ⟨[], by simp⟩
  | vlist xs =>
      refine Or.inr ⟨rfl, _, rfl, by simp, ?_⟩
      intro e he
      rcases List.mem_singleton.mp he with rfl
      exact ⟨[], by simp⟩

/-- Every cardinality error of the `skills` list sits at path `["skills"]`. -/
theorem skillsLenErrs_loc (xs : List Value) :
    ∀ e ∈ skillsLenErrs xs, e.loc = ["skills"] := by
  intro e he
  unfold skillsLenErrs at he
  rcases List.mem_append.mp he with h | h <;>
    [skip; skip] <;>
    (first
      | (by_cases hc : xs.length < 1
         · simp only [hc, if_true] at h
           rcases List.mem_singleton.mp h with rfl
           rfl
         · simp only [hc, if_false] at h
           cases h)
      | (by_cases hc : xs.length > 1
         · simp only [hc, if_true] at h
           rcases List.mem_singleton.mp h with rfl
           rfl
         · simp only [hc, if_false] at h
           cases h))

/-- `skillsField` decided by the spec-side `skillsViolated` predicate:
success yields exactly one in-bounds skill, failure a non-empty error list
entirely under the `skills` path. -/
theorem skillsField_facts (d : Dict) :
    (skillsViolated d = false ∧ ∃ ss, skillsField d = .ok ss ∧ ss.length = 1 ∧
      ss.all skillBounds = true) ∨
    (skillsViolated d = true ∧ ∃ es, skillsField d = .error es ∧ es ≠ [] ∧
      ∀ e ∈ es, e.loc.head? = some "skills") := by
  cases hv : pyLookup d "skills" with
  | none =>
      refine Or.inr ⟨by simp [skillsViolated, hv], [⟨["skills"], "Field required"⟩],
        by simp [skillsField, hv], by simp, ?_⟩
      intro e he
      rcases List.mem_singleton.mp he with rfl
      rfl
  | some w =>
      cases w with
      | vlist xs =>
          have hf : ∀ p v,
              (skillViolated v = false ∧ ∃ a, validateSkill p v = .ok a ∧ skillBounds a = true) ∨
              (skillViolated v = true ∧ ∃ es, validateSkill p v = .error es ∧ es ≠ [] ∧
                ∀ e ∈ es, ∃ suf, e.loc = p ++ suf) := validateSkill_facts
          have hred : skillsField d =
              (if (errsOf (validateItems validateSkill dfltSkill ["skills"] 0 xs)
                  ++ skillsLenErrs xs).isEmpty then
                .ok (extractOk [] (validateItems validateSkill dfltSkill ["skills"] 0 xs))
              else
                .error (errsOf (validateItems validateSkill dfltSkill ["skills"] 0 xs)
                        ++ skillsLenErrs xs)) := by
            unfold skillsField
            rw [hv]
          rcases validateItems_facts validateSkill dfltSkill skillViolated skillBounds hf
              ["skills"] 0 xs with ⟨hany, as, har, hlen, hQ⟩ | ⟨hany, esI, herI, hneI, hlocsI⟩
          · by_cases hl : xs.length = 1
            · left
              have hlerr : skillsLenErrs xs = [] := by
                unfold skillsLenErrs
                rw [if_neg (by omega), if_neg (by omega)]
                rfl
              have hemp : (errsOf (validateItems validateSkill dfltSkill ["skills"] 0 xs)
                  ++ skillsLenErrs xs).isEmpty = true := by
                rw [har, hlerr]
                rfl
              refine ⟨by simp [skillsViolated, hv, hl, hany], as, ?_, by omega, hQ⟩
              rw [hred, if_pos hemp, har]
              rfl
            · right
              have hlerr : skillsLenErrs xs ≠ [] := by
                unfold skillsLenErrs
                by_cases h1 : xs.length < 1
                · simp [h1]
                · have h2 : xs.length > 1 := by omega
                  simp [h1, h2]
              have hemp : (errsOf (validateItems validateSkill dfltSkill ["skills"] 0 xs)
                  ++ skillsLenErrs xs).isEmpty = false := by
                rw [har]
                show ([] ++ skillsLenErrs xs).isEmpty = false
                rw [List.nil_append]
                cases hc : skillsLenErrs xs with
                | nil => exact absurd hc hlerr
                | cons a b => rfl
              refine ⟨by simp [skillsViolated, hv, hl], _, by rw [hred, if_neg (by simp [hemp])],
                ?_, ?_⟩
              · rw [har]
                show ([] ++ skillsLenErrs xs) ≠ []
                rw [List.nil_append]
                exact hlerr
              · intro e he
                rw [har] at he
                simp only [errsOf, List.nil_append] at he
                rw [skillsLenErrs_loc xs e he]
                rfl
          · right
            have hemp : (errsOf (validateItems validateSkill dfltSkill ["skills"] 0 xs)
                ++ skillsLenErrs xs).isEmpty = false := by
              rw [herI]
              cases esI with
              | nil => exact absurd rfl hneI
              | cons a b => rfl
            refine ⟨by simp [skillsViolated, hv, hany], _,
              by rw [hred, if_neg (by simp [hemp])], ?_, ?_⟩
            · rw [herI]
              intro hc
              rw [List.append_eq_nil] at hc
              exact hneI hc.1
            · intro e he
              rw [herI] at he
              rcases List.mem_append.mp he with h1 | h2
              · rcases hlocsI e h1 with ⟨suf, hsuf⟩
                rw [hsuf]
                rfl
              · rw [skillsLenErrs_loc xs e h2]
                rfl
      | vnone =>
          refine Or.inr ⟨by simp [skillsViolated, hv],
            [⟨["skills"], "Input should be a valid list"⟩],
            by simp [skillsField, hv], by simp, ?_⟩
          intro e he
          rcases List.mem_singleton.mp he with rfl
          rfl
      | vstr s =>
          refine Or.inr ⟨by simp [skillsViolated, hv],
            [⟨["skills"], "Input should be a valid list"⟩],
            by simp [skillsField, hv], by simp, ?_⟩
          intro e he
          rcases List.mem_singleton.mp he with rfl
          rfl
      | vint n =>
          refine Or.inr ⟨by simp [skillsViolated, hv],
            [⟨["skills"], "Input should be a valid list"⟩],
            by simp [skillsField, hv], by simp, ?_⟩
          intro e he
          rcases List.mem_singleton.mp he with rfl
          rfl
      | vbool b =>
          refine Or.inr ⟨by simp [skillsViolated, hv],
            [⟨["skills"], "Input should be a valid list"⟩],
            by simp [skillsField, hv], by simp, ?_⟩
          intro e he
          rcases List.mem_singleton.mp he with rfl
          rfl
      | vdict kvs =>
          refine Or.inr ⟨by simp [skillsViolated, hv],
            [⟨["skills"], "Input should be a valid list"⟩],
            by simp [skillsField, hv], by simp, ?_⟩
          intro e he
          rcases List.mem_singleton.mp he with rfl
          rfl

/-- Every error of the `name`/`description`/`system_prompt` checks sits at
its own singleton path, and every `skills` error starts with `"skills"`. -/
theorem acErrs_locs (d : Dict) :
    (∀ e ∈ errsOf (acNameR d), e.loc = ["name"]) ∧
    (∀ e ∈ errsOf (acDescR d), e.loc = ["description"]) ∧
    (∀ e ∈ errsOf (acSpR d), e.loc = ["system_prompt"]) ∧
    (∀ e ∈ errsOf (skillsField d), e.loc.head? = some "skills") := by
  refine ⟨?_, ?_, ?_, ?_⟩
  · rcases strField_facts d "name" 1 (some 100) ["name"] with ⟨-, hh, -, -⟩ | ⟨-, e1, herr, hloc⟩
    · intro e he
      rw [show errsOf (acNameR d)
        = errsOf (strField d "name" 1 (some 100) ["name"]) from rfl, hh] at he
      cases he
    · intro e he
      rw [show errsOf (acNameR d)
        = errsOf (strField d "name" 1 (some 100) ["name"]) from rfl, herr] at he
      rcases List.mem_singleton.mp he with rfl
      exact hloc
  · rcases strField_facts d "description" 1 (some 500) ["description"] with
      ⟨-, hh, -, -⟩ | ⟨-, e1, herr, hloc⟩
    · intro e he
      rw [show errsOf (acDescR d)
        = errsOf (strField d "description" 1 (some 500) ["description"]) from rfl, hh] at he
      cases he
    · intro e he
      rw [show errsOf (acDescR d)
        = errsOf (strField d "description" 1 (some 500) ["description"]) from rfl, herr] at he
      rcases List.mem_singleton.mp he with rfl
      exact hloc
  · rcases strField_facts d "system_prompt" 10 none ["system_prompt"] with
      ⟨-, hh, -, -⟩ | ⟨-, e1, herr, hloc⟩
    · intro e he
      rw [show errsOf (acSpR d)
        = errsOf (strField d "system_prompt" 10 none ["system_prompt"]) from rfl, hh] at he
      cases he
    · intro e he
      rw [show errsOf (acSpR d)
        = errsOf (strField d "system_prompt" 10 none ["system_prompt"]) from rfl, herr] at he
      rcases List.mem_singleton.mp he with rfl
      exact hloc
  · rcases skillsField_facts d with ⟨-, ss, hok, -, -⟩ | ⟨-, es, herr, -, hlocs⟩
    · intro e he
      rw [hok] at he
      cases he
    · intro e he
      rw [herr] at he
      exact hlocs e he

/-- `validateAgentConfig` is a total dichotomy: either every spec-side field
constraint holds and it returns a config with exactly one skill and all
length bounds satisfied, or some constraint is violated and it returns a
non-empty error list that contains an entry at a field's path precisely when
that field is violated. -/
theorem validateAgentConfig_facts (d : Dict) :
    ((strFieldViolated d "name" 1 (some 100) || strFieldViolated d "description" 1 (some 500)
      || strFieldViolated d "system_prompt" 10 none || skillsViolated d) = false ∧
      ∃ c, validateAgentConfig d = .ok c ∧ c.skills.length = 1 ∧ configBounds c = true) ∨
    ((strFieldViolated d "name" 1 (some 100) || strFieldViolated d "description" 1 (some 500)
      || strFieldViolated d "system_prompt" 10 none || skillsViolated d) = true ∧
      ∃ es, validateAgentConfig d = .error es ∧ es ≠ [] ∧
      ((∃ e ∈ es, e.loc = ["name"]) ↔ strFieldViolated d "name" 1 (some 100) = true) ∧
      ((∃ e ∈ es, e.loc = ["description"]) ↔ strFieldViolated d "description" 1 (some 500) = true) ∧
      ((∃ e ∈ es, e.loc = ["system_prompt"]) ↔ strFieldViolated d "system_prompt" 10 none = true) ∧
      ((∃ e ∈ es, e.loc.head? = some "skills") ↔ skillsViolated d = true)) := by
  obtain ⟨hloc1, hloc2, hloc3, hloc4⟩ := acErrs_locs d
  by_cases hemp : (acErrs d).isEmpty = true
  · left
    have he : acErrs d = [] := by
      cases hc : acErrs d with
      | nil => rfl
      | cons a b => rw [hc] at hemp; exact absurd hemp (by simp)
    unfold acErrs at he
    have h1 := List.append_eq_nil.mp he
    have h2 := List.append_eq_nil.mp h1.1
    have h3 := List.append_eq_nil.mp h2.1
    have hE1 := h3.1
    have hE2 := h3.2
    have hE3 := h2.2
    have hE4 := h1.2
    have hok1 : strFieldViolated d "name" 1 (some 100) = false ∧
        1 ≤ (extractOk "" (acNameR d)).length ∧ (extractOk "" (acNameR d)).length ≤ 100 := by
      rcases strField_facts d "name" 1 (some 100) ["name"] with
        ⟨hv, -, hba, hbb⟩ | ⟨-, e1, herr, -⟩
      · exact ⟨hv, hba, hbb 100 rfl⟩
      · rw [show errsOf (acNameR d)
          = errsOf (strField d "name" 1 (some 100) ["name"]) from rfl, herr] at hE1
        cases hE1
    have hok2 : strFieldViolated d "description" 1 (some 500) = false ∧
        1 ≤ (extractOk "" (acDescR d)).length ∧ (extractOk "" (acDescR d)).length ≤ 500 := by
      rcases strField_facts d "description" 1 (some 500) ["description"] with
        ⟨hv, -, hba, hbb⟩ | ⟨-, e1, herr, -⟩
      · exact ⟨hv, hba, hbb 500 rfl⟩
      · rw [show errsOf (acDescR d)
          = errsOf (strField d "description" 1 (some 500) ["description"]) from rfl, herr] at hE2
        cases hE2
    have hok3 : strFieldViolated d "system_prompt" 10 none = false ∧
        10 ≤ (extractOk "" (acSpR d)).length := by
      rcases strField_facts d "system_prompt" 10 none ["system_prompt"] with
        ⟨hv, -, hba, -⟩ | ⟨-, e1, herr, -⟩
      · exact ⟨hv, hba⟩
      · rw [show errsOf (acSpR d)
          = errsOf (strField d "system_prompt" 10 none ["system_prompt"]) from rfl, herr] at hE3
        cases hE3
    have hok4 : skillsViolated d = false ∧ ∃ ss, skillsField d = .ok ss ∧ ss.length = 1 ∧
        ss.all skillBounds = true := by
      rcases skillsField_facts d with h | ⟨-, es, herr, hne, -⟩
      · exact h
      · rw [herr] at hE4
        exact absurd hE4 hne
    obtain ⟨hv4, ss, hss, hsslen, hssb⟩ := hok4
    refine ⟨by simp [hok1.1, hok2.1, hok3.1, hv4], _,
      by unfold validateAgentConfig; rw [if_pos hemp], ?_, ?_⟩
    · show (extractOk [] (skillsField d)).length = 1
      rw [hss]
      exact hsslen
    · show configBounds ⟨_, _, _, _⟩ = true
      simp only [configBounds, Bool.and_eq_true, decide_eq_true_eq]
      refine ⟨⟨⟨⟨⟨hok1.2.1, hok1.2.2⟩, hok2.2.1⟩, hok2.2.2⟩, hok3.2⟩, ?_⟩
      show (extractOk [] (skillsField d)).all skillBounds = true
      rw [hss]
      exact hssb
  · right
    have hne : acErrs d ≠ [] := by
      intro hc
      rw [hc] at hemp
      exact hemp rfl
    have hch1 : (∃ e ∈ errsOf (acNameR d), e.loc = ["name"]) ↔
        strFieldViolated d "name" 1 (some 100) = true := by
      rcases strField_facts d "name" 1 (some 100) ["name"] with
        ⟨hv, hh, -, -⟩ | ⟨hv, e1, herr, hl⟩
      · rw [show errsOf (acNameR d)
          = errsOf (strField d "name" 1 (some 100) ["name"]) from rfl, hh]
        constructor
        · rintro ⟨e, he, -⟩; cases he
        · intro h; rw [h] at hv; cases hv
      · rw [show errsOf (acNameR d)
          = errsOf (strField d "name" 1 (some 100) ["name"]) from rfl, herr]
        constructor
        · intro _; exact hv
        · intro _; exact ⟨e1, List.mem_singleton.mpr rfl, hl⟩
    have hch2 : (∃ e ∈ errsOf (acDescR d), e.loc = ["description"]) ↔
        strFieldViolated d "description" 1 (some 500) = true := by
      rcases strField_facts d "description" 1 (some 500) ["description"] with
        ⟨hv, hh, -, -⟩ | ⟨hv, e1, herr, hl⟩
      · rw [show errsOf (acDescR d)
          = errsOf (strField d "description" 1 (some 500) ["description"]) from rfl, hh]
        constructor
        · rintro ⟨e, he, -⟩; cases he
        · intro h; rw [h] at hv; cases hv
      · rw [show errsOf (acDescR d)
          = errsOf (strField d "description" 1 (some 500) ["description"]) from rfl, herr]
        constructor
        · intro _; exact hv
        · intro _; exact ⟨e1, List.mem_singleton.mpr rfl, hl⟩
    have hch3 : (∃ e ∈ errsOf (acSpR d), e.loc = ["system_prompt"]) ↔
        strFieldViolated d "system_prompt" 10 none = true := by
      rcases strField_facts d "system_prompt" 10 none ["system_prompt"] with
        ⟨hv, hh, -, -⟩ | ⟨hv, e1, herr, hl⟩
      · rw [show errsOf (acSpR d)
          = errsOf (strField d "system_prompt" 10 none ["system_prompt"]) from rfl, hh]
        constructor
        · rintro ⟨e, he, -⟩; cases he
        · intro h; rw [h] at hv; cases hv
      · rw [show errsOf (acSpR d)
          = errsOf (strField d "system_prompt" 10 none ["system_prompt"]) from rfl, herr]
        constructor
        · intro _; exact hv
        · intro _; exact ⟨e1, List.mem_singleton.mpr rfl, hl⟩
    have hch4 : (∃ e ∈ errsOf (skillsField d), e.loc.head? = some "skills") ↔
        skillsViolated d = true := by
      rcases skillsField_facts d with ⟨hv, ss, hok, -, -⟩ | ⟨hv, es, herr, hnees, hlocs⟩
      · rw [hok]
        constructor
        · rintro ⟨e, he, -⟩; cases he
        · intro h; rw [h] at hv; cases hv
      · rw [herr]
        constructor
        · intro _; exact hv
        · intro _
          cases es with
          | nil => exact absurd rfl hnees
          | cons e0 tl => exact ⟨e0, List.mem_cons_self e0 tl, hlocs e0 (List.mem_cons_self e0 tl)⟩
    have hvor : (strFieldViolated d "name" 1 (some 100)
        || strFieldViolated d "description" 1 (some 500)
        || strFieldViolated d "system_prompt" 10 none || skillsViolated d) = true := by
      by_contra hcon
      have hall : (strFieldViolated d "name" 1 (some 100)
          || strFieldViolated d "description" 1 (some 500)
          || strFieldViolated d "system_prompt" 10 none || skillsViolated d) = false := by
        cases hb : (strFieldViolated d "name" 1 (some 100)
            || strFieldViolated d "description" 1 (some 500)
            || strFieldViolated d "system_prompt" 10 none || skillsViolated d)
        · rfl
        · exact absurd hb hcon
      simp only [Bool.or_eq_false_iff] at hall
      obtain ⟨⟨⟨hv1, hv2⟩, hv3⟩, hv4⟩ := hall
      have hE1 : errsOf (acNameR d) = [] := by
        rcases strField_facts d "name" 1 (some 100) ["name"] with ⟨-, hh, -, -⟩ | ⟨hvv, -⟩
        · exact hh
        · rw [hv1] at hvv; cases hvv
      have hE2 : errsOf (acDescR d) = [] := by
        rcases strField_facts d "description" 1 (some 500) ["description"] with
          ⟨-, hh, -, -⟩ | ⟨hvv, -⟩
        · exact hh
        · rw [hv2] at hvv; cases hvv
      have hE3 : errsOf (acSpR d) = [] := by
        rcases strField_facts d "system_prompt" 10 none ["system_prompt"] with
          ⟨-, hh, -, -⟩ | ⟨hvv, -⟩
        · exact hh
        · rw [hv3] at hvv; cases hvv
      have hE4 : errsOf (skillsField d) = [] := by
        rcases skillsField_facts d with ⟨-, ss, hok, -, -⟩ | ⟨hvv, -⟩
        · rw [hok]; rfl
        · rw [hv4] at hvv; cases hvv
      have : acErrs d = [] := by
        unfold acErrs
        rw [hE1, hE2, hE3, hE4]
        rfl
      exact hne this
    refine ⟨hvor, acErrs d, by unfold validateAgentConfig; rw [if_neg hemp], hne, ?_, ?_, ?_, ?_⟩
    · constructor
      · rintro ⟨e, he, hl⟩
        unfold acErrs at he
        rcases List.mem_append.mp he with h123 | h4
        · rcases List.mem_append.mp h123 with h12 | h3
          · rcases List.mem_append.mp h12 with h1 | h2
            · exact hch1.mp ⟨e, h1, hl⟩
            · rw [hloc2 e h2] at hl
              exact absurd hl (by decide)
          · rw [hloc3 e h3] at hl
            exact absurd hl (by decide)
        · have := hloc4 e h4
          rw [hl] at this
          exact absurd this (by decide)
      · intro hv
        rcases hch1.mpr hv with ⟨e, he, hl⟩
        refine ⟨e, ?_, hl⟩
        unfold acErrs
        exact List.mem_append_left _ (List.mem_append_left _ (List.mem_append_left _ he))
    · constructor
      · rintro ⟨e, he, hl⟩
        unfold acErrs at he
        rcases List.mem_append.mp he with h123 | h4
        · rcases List.mem_append.mp h123 with h12 | h3
          · rcases List.mem_append.mp h12 with h1 | h2
            · rw [hloc1 e h1] at hl
              exact absurd hl (by decide)
            · exact hch2.mp ⟨e, h2, hl⟩
          · rw [hloc3 e h3] at hl
            exact absurd hl (by decide)
        · have := hloc4 e h4
          rw [hl] at this
          exact absurd this (by decide)
      · intro hv
        rcases hch2.mpr hv with ⟨e, he, hl⟩
        refine ⟨e, ?_, hl⟩
        unfold acErrs
        exact List.mem_append_left _ (List.mem_append_left _ (List.mem_append_right _ he))
    · constructor
      · rintro ⟨e, he, hl⟩
        unfold acErrs at he
        rcases List.mem_append.mp he with h123 | h4
        · rcases List.mem_append.mp h123 with h12 | h3
          · rcases List.mem_append.mp h12 with h1 | h2
            · rw [hloc1 e h1] at hl
              exact absurd hl (by decide)
            · rw [hloc2 e h2] at hl
              exact absurd hl (by decide)
          · exact hch3.mp ⟨e, h3, hl⟩
        · have := hloc4 e h4
          rw [hl] at this
          exact absurd this (by decide)
      · intro hv
        rcases hch3.mpr hv with ⟨e, he, hl⟩
        refine ⟨e, ?_, hl⟩
        unfold acErrs
        exact List.mem_append_left _ (List.mem_append_right _ he)
    · constructor
      · rintro ⟨e, he, hl⟩
        unfold acErrs at he
        rcases List.mem_append.mp he with h123 | h4
        · rcases List.mem_append.mp h123 with h12 | h3
          · rcases List.mem_append.mp h12 with h1 | h2
            · rw [hloc1 e h1] at hl
              exact absurd hl (by decide)
            · rw [hloc2 e h2] at hl
              exact absurd hl (by decide)
          · rw [hloc3 e h3] at hl
            exact absurd hl (by decide)
        · exact hch4.mp ⟨e, h4, hl⟩
      · intro hv
        rcases hch4.mpr hv with ⟨e, he, hl⟩
        refine ⟨e, ?_, hl⟩
        unfold acErrs
        exact List.mem_append_right _ he

/-- A validation failure never carries an empty error list. -/
theorem validateAgentConfig_error_ne_nil (d : Dict) (es : List VError)
    (h : validateAgentConfig d = .error es) : es ≠ [] := by
  rcases validateAgentConfig_facts d with ⟨-, c, hok, -, -⟩ | ⟨-, es', herr, hne, -⟩
  · rw [hok] at h
    cases h
  · rw [herr] at h
    injection h with h'
    rw [← h']
    exact hne

/-- C1: validating a candidate mapping has exactly two possible outcomes —
a validated `AgentConfig` whose `skills` list has length exactly 1 and whose
string fields satisfy all their length bounds, or a non-empty error list
that contains an entry at a field's path precisely when that field's
constraint is violated (all violations reported, not just the first); the
two outcomes are mutually exclusive and one always occurs. -/
theorem validate_outcome_dichotomy (d : Dict) :
    ((strFieldViolated d "name" 1 (some 100) || strFieldViolated d "description" 1 (some 500)
      || strFieldViolated d "system_prompt" 10 none || skillsViolated d) = false ∧
      ∃ c, validateAgentConfig d = .ok c ∧ c.skills.length = 1 ∧ configBounds c = true) ∨
    ((strFieldViolated d "name" 1 (some 100) || strFieldViolated d "description" 1 (some 500)
      || strFieldViolated d "system_prompt" 10 none || skillsViolated d) = true ∧
      ∃ es, validateAgentConfig d = .error es ∧ es ≠ [] ∧
      ((∃ e ∈ es, e.loc = ["name"]) ↔ strFieldViolated d "name" 1 (some 100) = true) ∧
      ((∃ e ∈ es, e.loc = ["description"]) ↔ strFieldViolated d "description" 1 (some 500) = true) ∧
      ((∃ e ∈ es, e.loc = ["system_prompt"]) ↔ strFieldViolated d "system_prompt" 10 none = true) ∧
      ((∃ e ∈ es, e.loc.head? = some "skills") ↔ skillsViolated d = true)) :=
  validateAgentConfig_facts d

/-- Witness for C1: on the empty candidate the validator reports a non-empty
error list with one entry per missing field, and on `hotelDict` it returns a
single-skill in-bounds config. -/
theorem validate_outcome_dichotomy_witness :
    (∃ es, validateAgentConfig ([] : Dict) = .error es ∧ es ≠ [] ∧
      (∃ e ∈ es, e.loc = ["name"]) ∧ (∃ e ∈ es, e.loc.head? = some "skills")) ∧
    (∃ c, validateAgentConfig hotelDict = .ok c ∧ c.skills.length = 1 ∧
      configBounds c = true) := by
  constructor
  · rcases validate_outcome_dichotomy ([] : Dict) with ⟨hv, -⟩ | ⟨-, es, herr, hne, h1, -, -, h4⟩
    · exact absurd hv (by decide)
    · exact ⟨es, herr, hne, h1.mpr (by decide), h4.mpr (by decide)⟩
  · rcases validate_outcome_dichotomy hotelDict with ⟨-, c, hok, hlen, hb⟩ | ⟨hv, -⟩
    · exact ⟨c, hok, hlen, hb⟩
    · exact absurd hv (by decide)

/-- C3: `write_agent_config` validates first; on success the stored value is
replaced entirely by the validated config (independently of what was stored,
so previously accumulated partial data is discarded) and the mock
conversation is untouched; on failure the whole state is unchanged and the
full non-empty error list is rendered back to the caller. -/
theorem write_full_replace_or_untouched (st : AgentStateM) (candidate : Dict) :
    (∀ c, validateAgentConfig candidate = .ok c →
      write_agent_config candidate =
        .command ⟨some (.acfg c), none⟩
          ("Agent configuration written successfully: " ++ c.name) ∧
      applyToolResult st (write_agent_config candidate) =
        ⟨some (.acfg c), st.mock_conversations⟩) ∧
    (∀ es, validateAgentConfig candidate = .error es →
      applyToolResult st (write_agent_config candidate) = st ∧
      es ≠ [] ∧
      write_agent_config candidate =
        .errorText ("Configuration validation failed:\n"
          ++ String.intercalate "\n" (es.map renderError))) := by
  constructor
  · intro c h
    have hw : write_agent_config candidate =
        .command ⟨some (.acfg c), none⟩
          ("Agent configuration written successfully: " ++ c.name) := by
      unfold write_agent_config
      rw [h]
    refine ⟨hw, ?_⟩
    rw [hw]
    rfl
  · intro es h
    have hw : write_agent_config candidate =
        .errorText ("Configuration validation failed:\n"
          ++ String.intercalate "\n" (es.map renderError)) := by
      unfold write_agent_config
      rw [h]
    refine ⟨?_, validateAgentConfig_error_ne_nil candidate es h, hw⟩
    rw [hw]
    rfl

/-- Witness for C3: a successful write over a stored partial replaces it
wholesale, and a failing write over the same state leaves it untouched. -/
theorem write_full_replace_or_untouched_witness :
    applyToolResult ⟨some (.raw [("name", Value.vstr "Old")]), some [.human "m"]⟩
        (write_agent_config hotelDict) =
      ⟨some (.acfg hotelCfg), some [.human "m"]⟩ ∧
    applyToolResult ⟨some (.raw [("name", Value.vstr "Old")]), some [.human "m"]⟩
        (write_agent_config ([] : Dict)) =
      ⟨some (.raw [("name", Value.vstr "Old")]), some [.human "m"]⟩ :=
  ⟨((write_full_replace_or_untouched
      ⟨some (.raw [("name", Value.vstr "Old")]), some [.human "m"]⟩ hotelDict).1 hotelCfg rfl).2,
   ((write_full_replace_or_untouched
      ⟨some (.raw [("name", Value.vstr "Old")]), some [.human "m"]⟩ ([] : Dict)).2
      (acErrs []) rfl).1⟩

/-- C6 (amended): the stored mock conversation is replaced wholesale (never
merged) on each parser invocation via the set operation; but it is NOT
cleared when the owning `AgentConfig` is replaced — `write_agent_config`
leaves the `mock_conversations` slot untouched whatever it writes. -/
theorem mock_wholesale_never_cleared (st : AgentStateM) (s : String)
    (old : Option (List BaseMsg)) (new : List BaseMsg) (cand : Dict) :
    mock_conversations_reducer old (some new) = new ∧
    applyToolResult st (update_mock_conversation s) =
      ⟨st.agent_config, some (parse_mock_conversations s)⟩ ∧
    (applyToolResult st (write_agent_config cand)).mock_conversations =
      st.mock_conversations := by
  refine ⟨rfl, rfl, ?_⟩
  unfold write_agent_config
  cases validateAgentConfig cand <;> rfl

/-- C6 (counterexample): writing a materially different valid configuration
(`config_changed` reports `true`) does not clear the stored mock
conversation — it survives unchanged. -/
theorem mock_not_cleared_counterexample :
    config_changed (some (.acfg hotelCfg)) (.acfg travelCfg) = true ∧
    applyToolResult ⟨some (.acfg hotelCfg), some [.human "scenario"]⟩
        (write_agent_config travelDict) =
      ⟨some (.acfg travelCfg), some [.human "scenario"]⟩ :=
  ⟨rfl, rfl⟩

/-! ### Mock-conversation parser (claim C4) -/

theorem splitNL_no_newline (l : List Char) (h : ∀ c ∈ l, c ≠ '\n') :
    splitNL l = [l] := by
  induction l with
  | nil => rfl
  | cons c t ih =>
      have hc := h c (List.mem_cons_self c t)
      have ht := ih fun x hx => h x (List.mem_cons_of_mem c hx)
      unfold splitNL
      rw [if_neg hc, ht]

theorem dropWhile_eq_self_of_all (p : Char → Bool) (l : List Char)
    (h : ∀ c ∈ l, p c = false) : l.dropWhile p = l := by
  cases l with
  | nil => rfl
  | cons c t => exact List.dropWhile_cons_of_neg (by simp [h c (List.mem_cons_self c t)])

theorem trimChars_of_all_nonWS (l : List Char)
    (h : ∀ c ∈ l, isPyWS c = false) : trimChars l = l := by
  unfold trimChars
  rw [dropWhile_eq_self_of_all _ _ h,
      dropWhile_eq_self_of_all _ _ (fun c hc => h c (List.mem_reverse.mp hc)),
      List.reverse_reverse]

theorem findCS_boundary (label rest : List Char) (h : findCS label = none) :
    findCS (label ++ ':' :: '*' :: '*' :: rest) = some label.length := by
  induction label with
  | nil =>
      show findCS (':' :: '*' :: '*' :: rest) = some 0
      unfold findCS
      rw [if_pos (by simp [startsWithCS])]
  | cons c t ih =>
      have hsplit : startsWithCS (c :: t) = false ∧ findCS t = none := by
        unfold findCS at h
        by_cases hs : startsWithCS (c :: t) = true
        · rw [if_pos hs] at h
          cases h
        · refine ⟨by simpa using hs, ?_⟩
          rw [if_neg hs] at h
          exact Option.map_eq_none.mp h
      have hstart : startsWithCS (c :: (t ++ ':' :: '*' :: '*' :: rest)) = false := by
        cases t with
        | nil => simp [startsWithCS]
        | cons d t2 =>
            cases t2 with
            | nil => simp [startsWithCS]
            | cons e t3 =>
                have := hsplit.1
                simp only [startsWithCS] at this ⊢
                exact this
      show findCS (c :: (t ++ ':' :: '*' :: '*' :: rest)) = some (c :: t).length
      unfold findCS
      rw [if_neg (by simp [hstart]), ih hsplit.2]
      rfl

/-- One equation of `parseLoop` on a non-empty line list. -/
theorem parseLoop_cons (l : List Char) (ls : List (List Char)) (st : PState) :
    parseLoop (l :: ls) st =
      (if (trimChars l).isEmpty then
        (if st.role.isEmpty || st.content.isEmpty then parseLoop ls st
         else parseLoop ls ⟨emitTurn st, st.role, []⟩)
      else
        match matchRole (trimChars l) with
        | some (label, content) => parseLoop ls ⟨emitTurn st, label, [content]⟩
        | none =>
            if st.role.isEmpty then parseLoop ls st
            else parseLoop ls ⟨st.messages, st.role, st.content ++ [trimChars l]⟩) := rfl

/-- A marker-free line list leaves the empty-role parser state inert. -/
theorem parseLoop_no_marker (ls : List (List Char)) (msgs : List BaseMsg)
    (h : ∀ l ∈ ls, (matchRole (trimChars l)).isNone = true) :
    parseLoop ls ⟨msgs, [], []⟩ = msgs := by
  induction ls with
  | nil => rfl
  | cons l ls ih =>
      have hl := h l (List.mem_cons_self l ls)
      have ht := ih fun x hx => h x (List.mem_cons_of_mem l hx)
      rw [parseLoop_cons]
      by_cases he : (trimChars l).isEmpty = true
      · rw [if_pos he]
        exact ht
      · rw [if_neg he]
        cases hm : matchRole (trimChars l) with
        | some p => rw [hm] at hl; cases hl
        | none => exact ht

/-- C4: the parser's behavior on its specified cases — the two-turn example,
empty input, an unterminated trailing turn, marker-free input, and the
general single-marker line whose label is classified case-insensitively as
`User` for `user`/`用户` and as `Agent` otherwise. -/
theorem parser_behavior :
    parse_mock_conversations "**User:** Hi\n**Agent:** Hello\n" = [.human "Hi", .ai "Hello"] ∧
    parse_mock_conversations "" = [] ∧
    parse_mock_conversations "**User:** Hi" = [.human "Hi"] ∧
    (∀ s, markerFree s = true → parse_mock_conversations s = []) ∧
    (∀ label content : List Char,
      label ≠ [] →
      label.all (fun c => !isPyWS c) = true →
      findCS label = none →
      content ≠ [] →
      content.all (fun c => !isPyWS c) = true →
      parse_mock_conversations
          (String.mk (('*' :: '*' :: label) ++ ':' :: '*' :: '*' :: ' ' :: content)) =
        [if (label.map Char.toLower = "user".toList
             || label.map Char.toLower = "用户".toList) = true
         then .human (String.mk content) else .ai (String.mk content)]) := by
  refine ⟨rfl, rfl, rfl, ?_, ?_⟩
  · intro s hm
    unfold markerFree at hm
    rw [List.all_eq_true] at hm
    exact parseLoop_no_marker _ [] fun l hl => hm l hl
  · intro label content hlne hlws hlcs hcne hcws
    have hlws' : ∀ c ∈ label, isPyWS c = false := by
      intro c hc
      have := List.all_eq_true.mp hlws c hc
      simpa using this
    have hcws' : ∀ c ∈ content, isPyWS c = false := by
      intro c hc
      have := List.all_eq_true.mp hcws c hc
      simpa using this
    have hnl : ∀ c ∈ ('*' :: '*' :: label) ++ ':' :: '*' :: '*' :: ' ' :: content, c ≠ '\n' := by
      intro c hc
      simp only [List.mem_append, List.mem_cons] at hc
      rcases hc with (rfl | rfl | hcl) | (rfl | rfl | rfl | rfl | hcc)
      · decide
      · decide
      · intro hcon
        subst hcon
        have := hlws' _ hcl
        exact absurd this (by decide)
      · decide
      · decide
      · decide
      · decide
      · intro hcon
        subst hcon
        have := hcws' _ hcc
        exact absurd this (by decide)
    unfold parse_mock_conversations
    rw [show (String.mk (('*' :: '*' :: label) ++ ':' :: '*' :: '*' :: ' ' :: content)).toList
        = ('*' :: '*' :: label) ++ ':' :: '*' :: '*' :: ' ' :: content from rfl]
    rw [splitNL_no_newline _ hnl]
    -- the single line survives stripping: its head is '*', its last is the
    -- last of `content`, both non-whitespace
    have htrim : trimChars (('*' :: '*' :: label) ++ ':' :: '*' :: '*' :: ' ' :: content)
        = ('*' :: '*' :: label) ++ ':' :: '*' :: '*' :: ' ' :: content := by
      obtain ⟨c0, rrest, hrev⟩ : ∃ c0 rrest, content.reverse = c0 :: rrest := by
        cases hc : content.reverse with
        | nil => exact absurd (by simpa using congrArg List.reverse hc) hcne
        | cons a b => exact ⟨a, b, rfl⟩
      have hc0 : isPyWS c0 = false :=
        hcws' c0 (List.mem_reverse.mp (hrev ▸ List.mem_cons_self c0 rrest))
      have hshape : ('*' :: '*' :: label) ++ ':' :: '*' :: '*' :: ' ' :: content
          = '*' :: (('*' :: (label ++ [':', '*', '*', ' '])) ++ content) := by
        simp
      unfold trimChars
      rw [hshape, List.dropWhile_cons_of_neg (by decide)]
      obtain ⟨tail, htail⟩ :
          ∃ t, ('*' :: (('*' :: (label ++ [':', '*', '*', ' '])) ++ content)).reverse
            = c0 :: t := by
        rw [List.reverse_cons, List.reverse_append, hrev, List.cons_append, List.cons_append]
        exact ⟨_, rfl⟩
      rw [htail, List.dropWhile_cons_of_neg (by simp [hc0]), ← htail, List.reverse_reverse]
    rw [parseLoop_cons, htrim]
    rw [if_neg (by simp)]
    have hmatch : matchRole (('*' :: '*' :: label) ++ ':' :: '*' :: '*' :: ' ' :: content)
        = some (label, content) := by
      show (match findCS (label ++ ':' :: '*' :: '*' :: ' ' :: content) with
        | some i => some (trimChars ((label ++ ':' :: '*' :: '*' :: ' ' :: content).take i),
                          trimChars ((label ++ ':' :: '*' :: '*' :: ' ' :: content).drop (i + 3)))
        | none => none) = some (label, content)
      rw [findCS_boundary label (' ' :: content) hlcs]
      show some (trimChars ((label ++ ':' :: '*' :: '*' :: ' ' :: content).take label.length),
                 trimChars ((label ++ ':' :: '*' :: '*' :: ' ' :: content).drop (label.length + 3)))
        = some (label, content)
      have htake : (label ++ ':' :: '*' :: '*' :: ' ' :: content).take label.length = label := by
        rw [List.take_left]
      have hdrop : (label ++ ':' :: '*' :: '*' :: ' ' :: content).drop (label.length + 3)
          = ' ' :: content := by
        rw [show label ++ ':' :: '*' :: '*' :: ' ' :: content
            = (label ++ [':', '*', '*']) ++ ' ' :: content by rw [List.append_assoc]; rfl]
        rw [show label.length + 3 = (label ++ [':', '*', '*']).length by simp]
        rw [List.drop_left]
      rw [htake, hdrop]
      rw [trimChars_of_all_nonWS label hlws']
      have htc : trimChars (' ' :: content) = content := by
        unfold trimChars
        rw [List.dropWhile_cons_of_pos (by decide)]
        rw [dropWhile_eq_self_of_all _ _ hcws',
            dropWhile_eq_self_of_all _ _ (fun c hc => hcws' c (List.mem_reverse.mp hc)),
            List.reverse_reverse]
      rw [htc]
    rw [hmatch]
    show emitTurn ⟨emitTurn ⟨[], [], []⟩, label, [content]⟩ = _
    rw [show emitTurn ⟨[], [], []⟩ = [] from rfl]
    unfold emitTurn
    rw [if_neg (by simp [hlne])]
    show [] ++ [mkMsg label (String.mk (List.intercalate ['\n'] [content]))] = _
    rw [List.nil_append]
    rw [show List.intercalate ['\n'] [content] = content by
      simp [List.intercalate, List.intersperse]]
    unfold mkMsg
    rfl

/-- Witness for C4: a marker-free two-line input parses to nothing; a
single-marker line with a non-`user` label yields one `Agent` turn and with
the label `User` one `User` turn. -/
theorem parser_behavior_witness :
    parse_mock_conversations "hello\nworld" = [] ∧
    parse_mock_conversations (String.mk (('*' :: '*' :: "HOTELBOT".toList)
      ++ ':' :: '*' :: '*' :: ' ' :: "Hey!".toList)) = [.ai "Hey!"] ∧
    parse_mock_conversations (String.mk (('*' :: '*' :: "User".toList)
      ++ ':' :: '*' :: '*' :: ' ' :: "Yo".toList)) = [.human "Yo"] := by
  refine ⟨parser_behavior.2.2.2.1 "hello\nworld" (by decide), ?_, ?_⟩
  · have h := parser_behavior.2.2.2.2 "HOTELBOT".toList "Hey!".toList (by decide) (by decide)
      (by decide) (by decide) (by decide)
    rw [h]
    rfl
  · have h := parser_behavior.2.2.2.2 "User".toList "Yo".toList (by decide) (by decide)
      (by decide) (by decide) (by decide)
    rw [h]
    rfl

/-! ### Python equality and instantiation gating (claim C8) -/

theorem pyLookup_of_nodup_mem (kvs : Dict) (k : String) (v : Value)
    (hnd : (kvs.map Prod.fst).Nodup) (hm : (k, v) ∈ kvs) :
    pyLookup kvs k = some v := by
  induction kvs with
  | nil => cases hm
  | cons kv rest ih =>
      obtain ⟨k', v'⟩ := kv
      rcases List.mem_cons.mp hm with heq | hmem
      · injection heq with h1 h2
        subst h1
        subst h2
        show (if k = k then some v else pyLookup rest k) = some v
        rw [if_pos rfl]
      · have hnd' := List.nodup_cons.mp hnd
        have hk : k' ≠ k := by
          intro hc
          subst hc
          exact hnd'.1 (List.mem_map.mpr ⟨(k', v), hmem, rfl⟩)
        show (if k' = k then some v' else pyLookup rest k) = some v
        rw [if_neg hk]
        exact ih hnd'.2 hmem

mutual

/-- Python `==` is reflexive on well-formed values. -/
theorem pyEq_refl : ∀ v : Value, wfB v = true → pyEq v v = true
  | .vnone, _ => rfl
  | .vstr s, _ => by simp [pyEq]
  | .vint n, _ => by simp [pyEq]
  | .vbool b, _ => by simp [pyEq]
  | .vlist xs, h => pyEqList_refl xs (by simpa [wfB] using h)
  | .vdict kvs, h => by
      have h' : (kvs.map Prod.fst).Nodup ∧ wfEntriesB kvs = true := by
        simpa [wfB] using h
      show (decide (kvs.length = kvs.length) && pyEqEntries kvs kvs) = true
      rw [Bool.and_eq_true]
      refine ⟨by simp, ?_⟩
      exact pyEqEntries_lookup kvs kvs h'.2
        (fun k v hm => pyLookup_of_nodup_mem kvs k v h'.1 hm)

theorem pyEqList_refl : ∀ xs : List Value, wfListB xs = true → pyEqList xs xs = true
  | [], _ => rfl
  | x :: rest, h => by
      have h' : wfB x = true ∧ wfListB rest = true := by
        simpa [wfListB] using h
      show (pyEq x x && pyEqList rest rest) = true
      rw [Bool.and_eq_true]
      exact ⟨pyEq_refl x h'.1, pyEqList_refl rest h'.2⟩

/-- Each entry of a well-formed dict compares equal against any dict whose
lookup reproduces it. -/
theorem pyEqEntries_lookup :
    ∀ (kvs full : List (String × Value)), wfEntriesB kvs = true →
      (∀ k v, (k, v) ∈ kvs → pyLookup full k = some v) → pyEqEntries kvs full = true
  | [], _, _, _ => rfl
  | (k, v) :: rest, full, hw, hl => by
      have hw' : wfB v = true ∧ wfEntriesB rest = true := by
        simpa [wfEntriesB] using hw
      show ((match pyLookup full k with
              | some w => pyEq v w
              | none => false) && pyEqEntries rest full) = true
      rw [hl k v (List.mem_cons_self (k, v) rest)]
      show (pyEq v v && pyEqEntries rest full) = true
      rw [Bool.and_eq_true]
      exact ⟨pyEq_refl v hw'.1,
        pyEqEntries_lookup rest full hw'.2
          (fun k' v' hm => hl k' v' (List.mem_cons_of_mem (k, v) hm))⟩

end

/-- Python dict equality ignores insertion order: a permutation of a
well-formed dict compares `==` to it. -/
theorem pyEqDict_of_perm (a b : Dict) (hperm : a.Perm b)
    (hnodup : (a.map Prod.fst).Nodup) (hw : wfEntriesB a = true) :
    pyEqDict a b = true := by
  unfold pyEqDict
  show (decide (a.length = b.length) && pyEqEntries a b) = true
  rw [Bool.and_eq_true]
  refine ⟨by simp [hperm.length_eq], ?_⟩
  have hbnd : (b.map Prod.fst).Nodup := (hperm.map Prod.fst).nodup_iff.mp hnodup
  exact pyEqEntries_lookup a b hw
    (fun k v hm => pyLookup_of_nodup_mem b k v hbnd (hperm.mem_iff.mp hm))

/-- C8: `update_state_from_agent` stores the new config and re-instantiates
exactly when `config_changed` holds; `config_changed` reports "unchanged"
precisely when a prior config exists whose dict form is Python-`==` to the
new one; and that comparison is structural — in particular insertion order
of a well-formed dict's keys is irrelevant to it. -/
theorem change_detection_gating (old : Option ConfigValue) (new : ConfigValue) :
    (update_state_from_agent old new).1 = some new ∧
    (update_state_from_agent old new).2 = config_changed old new ∧
    (config_changed old new = false ↔
      ∃ o, old = some o ∧ pyEqDict o.toDict new.toDict = true) ∧
    (∀ a b : Dict, a.Perm b → (a.map Prod.fst).Nodup → wfEntriesB a = true →
      pyEqDict a b = true) := by
  refine ⟨rfl, rfl, ?_, pyEqDict_of_perm⟩
  constructor
  · intro h
    cases old with
    | none => cases h
    | some o =>
        refine ⟨o, rfl, ?_⟩
        have hnb : (!pyEqDict o.toDict new.toDict) = false := h
        cases hpe : pyEqDict o.toDict new.toDict with
        | true => rfl
        | false => rw [hpe] at hnb; cases hnb
  · rintro ⟨o, rfl, hpe⟩
    show (!pyEqDict o.toDict new.toDict) = false
    rw [hpe]
    rfl

/-- Witness for C8: rewriting the same config reports "unchanged" (no
re-instantiation), and a key-permuted well-formed dict is `==`-equal. -/
theorem change_detection_gating_witness :
    (update_state_from_agent (some (.acfg hotelCfg)) (.acfg hotelCfg)).2 = false ∧
    pyEqDict [("a", Value.vint 1), ("b", Value.vstr "x")]
             [("b", Value.vstr "x"), ("a", Value.vint 1)] = true := by
  constructor
  · rw [(change_detection_gating (some (.acfg hotelCfg)) (.acfg hotelCfg)).2.1]
    rfl
  · exact (change_detection_gating none (.acfg hotelCfg)).2.2.2
      [("a", Value.vint 1), ("b", Value.vstr "x")]
      [("b", Value.vstr "x"), ("a", Value.vint 1)]
      (List.Perm.swap ("b", Value.vstr "x") ("a", Value.vint 1) [])
      (by decide) (by decide)

end AgentBuilder
